import Mathlib

/-!
Verification of the tocaia Gopher client (src/tocaia.c) against its
natural-language specification.  The C code is shallowly embedded: C strings
become `List Char` (NUL-free by construction), C `int` becomes `Int`, heap
pointers of the navigation history become an explicit association list of
nodes indexed by allocation ids, and fallible functions return `Option`.
-/

namespace Tocaia

/-- C strings are modelled as lists of characters (no embedded NUL). -/
abbrev Str := List Char

/-- `isspace` from ctype.h in the C locale: space, tab, newline, vertical
tab, form feed, carriage return. -/
def cIsSpace (c : Char) : Bool :=
  c == ' ' || c == '\t' || c == '\n' || c == '\x0b' || c == '\x0c' || c == '\r'

/-- Embedding of `trim_whitespace` (tocaia.c:321-333).  The C function
advances a local pointer past leading whitespace but never moves the buffer
contents, so the stored string keeps its leading whitespace; if the string is
entirely whitespace it is returned unchanged; otherwise only the trailing
whitespace is cut off by writing a terminator. -/
def trim_whitespace (s : Str) : Str :=
  if s.all cIsSpace then s
  else (s.reverse.dropWhile cIsSpace).reverse

/-- Value of a decimal digit character. -/
def digitVal (c : Char) : Int := (c.toNat : Int) - 48

/-- Digit-consuming loop of C89 `atoi`: consume leading decimal digits,
accumulating the value; stop at the first non-digit. -/
def atoiDigits (acc : Int) : Str → Int
  | [] => acc
  | c :: rest => if c.isDigit then atoiDigits (acc * 10 + digitVal c) rest else acc

/-- Embedding of C89 `atoi` as used by tocaia.c: skip `isspace` characters,
then an optional sign, then consume leading digits (0 if there are none). -/
def atoi (s : Str) : Int :=
  match s.dropWhile cIsSpace with
  | [] => 0
  | c :: rest =>
    if c = '-' then - atoiDigits 0 rest
    else if c = '+' then atoiDigits 0 rest
    else atoiDigits 0 (c :: rest)

/-- The character for a decimal digit value. -/
def digitCh (n : Nat) : Char := Char.ofNat (48 + n)

/-- Fuelled digit production for `natRepr` (structural recursion, so that
it evaluates inside the kernel). -/
def natReprGo : Nat → Nat → Str
  | 0, _ => []
  | fuel + 1, n =>
    if n < 10 then [digitCh n]
    else natReprGo fuel (n / 10) ++ [digitCh (n % 10)]

/-- Decimal representation of a natural number (used to build URL strings
such as `gopher://h:70/s` for the address-parser round-trip claims). -/
def natRepr (n : Nat) : Str := natReprGo (n + 1) n

/-! ## Content classifier (`is_gopher_menu`, tocaia.c:258-301) -/

/-- The first line of the page content as inspected by `is_gopher_menu`:
the text before the first newline (the whole content if there is none),
truncated to 1023 characters by the `strncpy` into a 1024-byte buffer. -/
def first_line_of (content : Str) : Str :=
  match content.dropWhile (· ≠ '\n') with
  | [] => content.take 1023
  | _ :: _ => (content.takeWhile (· ≠ '\n')).take 1023

/-- Embedding of `is_gopher_menu` (tocaia.c:258-301).  Takes the current
node's selector and its optional cached body.  A NULL body is never a menu;
selector types 0,4,5,6,9,g,I,h are never menus; an empty selector or type 1
is always a menu; otherwise the first line is checked for a tab. -/
def is_gopher_menu (selector : Str) (page_content : Option Str) : Bool :=
  match page_content with
  | none => false
  | some content =>
    match selector.head? with
    | none => true
    | some c =>
      if c = '0' ∨ c = '4' ∨ c = '5' ∨ c = '6' ∨ c = '9' ∨ c = 'g' ∨ c = 'I' ∨ c = 'h' then
        false
      else if c = '1' then true
      else (first_line_of content).contains '\t'

/-! ## Text line counting (`calculate_text_lines`, tocaia.c:304-318) -/

/-- The newline-counting loop of `calculate_text_lines`. -/
def countNewlines : Str → Int
  | [] => 0
  | c :: rest => (if c = '\n' then 1 else 0) + countNewlines rest

/-- Embedding of `calculate_text_lines` (tocaia.c:304-318): count the
newlines, plus one if the content is nonempty and does not end in one. -/
def calculate_text_lines (content : Str) : Int :=
  countNewlines content +
    (if content ≠ [] ∧ content.getLast? ≠ some '\n' then 1 else 0)

/-! ## Menu line parser (`parse_gopher_line`, tocaia.c:336-409) -/

/-- Embedding of `struct GopherItem` (tocaia.c:69-77). -/
structure GopherItem where
  type : Char
  display_string : Str
  selector : Str
  host : Str
  port : Int
  is_selectable : Bool
  menu_index : Int
deriving Repr, DecidableEq

/-- The literal dead-link sentinel host `null.host`. -/
def nullHost : Str := ['n', 'u', 'l', 'l', '.', 'h', 'o', 's', 't']

/-- The literal dead-link sentinel host `error.host`. -/
def errorHost : Str := ['e', 'r', 'r', 'o', 'r', '.', 'h', 'o', 's', 't']

/-- Remove a trailing carriage return, as done at tocaia.c:345-347. -/
def stripCR (line : Str) : Str :=
  match line.getLast? with
  | some '\r' => line.dropLast
  | _ => line

/-- Split a string at its first tab: the part before it, and, when a tab is
present, the part after it.  Mirrors one step of the manual `strchr`-based
tokenizer at tocaia.c:361-373. -/
def splitFirstTab (s : Str) : Str × Option Str :=
  match s.dropWhile (· ≠ '\t') with
  | [] => (s, none)
  | _ :: rest => (s.takeWhile (· ≠ '\t'), some rest)

/-- The up-to-four tab-separated fields of a menu line (the text after the
type character): display, selector, host, port.  `fields[0]` always exists;
the port field keeps any tabs after the third one, exactly like the C loop
that only splits at the first three tabs. -/
def menuFields (rest : Str) : Str × Option Str × Option Str × Option Str :=
  let p0 := splitFirstTab rest
  match p0.2 with
  | none => (p0.1, none, none, none)
  | some t1 =>
    let p1 := splitFirstTab t1
    match p1.2 with
    | none => (p0.1, some p1.1, none, none)
    | some t2 =>
      let p2 := splitFirstTab t2
      (p0.1, some p1.1, some p2.1, p2.2)

/-- Embedding of `parse_gopher_line` (tocaia.c:336-409).  Returns `none`
(the C function's FALSE) for skipped lines: in the NUL-free string model the
three C skip conditions - empty line, the `"."` end marker, length < 2 -
reduce to length < 2.  Informational (`i`) or field-deficient lines become
non-selectable items whose display text is `fields[0]` (the in-place
tokenizer has already cut the line at the first tab) passed through
`trim_whitespace`; otherwise the fields are copied with their `strncpy`
truncations and selectability is decided from the type and resolved host. -/
def parse_gopher_line (line0 : Str) (current_host : Str) (current_port : Int) :
    Option GopherItem :=
  match stripCR line0 with
  | [] => none
  | [_] => none
  | ty :: r1 :: rs =>
    let f := menuFields (r1 :: rs)
    if ty = 'i' ∨ f.2.1 = none ∨ f.2.2.1 = none then
      some { type := ty, display_string := trim_whitespace (f.1.take 1023),
             selector := [], host := [], port := 0,
             is_selectable := false, menu_index := 0 }
    else
      let f1 := (f.2.1).getD []
      let f2 := (f.2.2.1).getD []
      let host := (if f2 ≠ [] then f2 else current_host).take 255
      let port := match f.2.2.2 with
        | some f3 => atoi f3
        | none => current_port
      some { type := ty, display_string := trim_whitespace (f.1.take 1023),
             selector := f1.take 1023, host := host, port := port,
             is_selectable :=
               (ty == '0' || ty == '1' || ty == '2' || ty == '7' || ty == 'h') &&
               !(host == nullHost) && !(host == errorHost),
             menu_index := 0 }

/-! ## Response processing (`process_gopher_response`, tocaia.c:412-462) -/

/-- The token accumulator for `strtokLines`: `cur` holds the characters of
the token being read, in reverse. -/
def strtokGo (cur : Str) : Str → List Str
  | [] => if cur = [] then [] else [cur.reverse]
  | c :: rest =>
    if c = '\n' then
      if cur = [] then strtokGo [] rest else cur.reverse :: strtokGo [] rest
    else strtokGo (c :: cur) rest

/-- `strtok(data, "\n")` semantics: the maximal nonempty runs of
non-newline characters, in order (empty lines never appear). -/
def strtokLines (data : Str) : List Str := strtokGo [] data

/-- One step of the item-collection loop of `process_gopher_response`:
parsed items are appended; selectable ones get the next 1-based ordinal as
their `menu_index`. -/
def processLine (ch : Str) (cp : Int) (acc : List GopherItem × Int) (line : Str) :
    List GopherItem × Int :=
  match parse_gopher_line line ch cp with
  | none => acc
  | some item =>
    if item.is_selectable then
      (acc.1 ++ [{ item with menu_index := acc.2 + 1 }], acc.2 + 1)
    else
      (acc.1 ++ [item], acc.2)

/-- Embedding of `process_gopher_response` (tocaia.c:412-462): tokenize the
body into lines, parse each, collect the items and count the selectable
ones (which is what the C code stores in `state->selectable_items`). -/
def process_gopher_response (data : Str) (ch : Str) (cp : Int) :
    List GopherItem × Int :=
  (strtokLines data).foldl (processLine ch cp) ([], 0)

/-! ## Address parser (`parse_gopher_address`, tocaia.c:1373-1433) -/

/-- The `gopher://` scheme, as a character list. -/
def gopherScheme : Str := ['g', 'o', 'p', 'h', 'e', 'r', ':', '/', '/']

/-- The input after the `strncpy` into the 1290-byte `temp_address` buffer
(which keeps at most 1289 characters) and the optional scheme strip. -/
def schemeStripped (address : Str) : Str :=
  let temp := address.take 1289
  if temp.take 9 = gopherScheme then temp.drop 9 else temp

/-- The `host:port` part: everything before the first `/`. -/
def hostPortPart (address : Str) : Str :=
  (schemeStripped address).takeWhile (· ≠ '/')

/-- The raw selector part: everything after the first `/`, when present. -/
def selectorPartRaw (address : Str) : Option Str :=
  match (schemeStripped address).dropWhile (· ≠ '/') with
  | [] => none
  | _ :: rest => some rest

/-- Split at the last colon (`strrchr`): the part before it and, when a
colon is present, the part after it. -/
def splitLastColon (s : Str) : Str × Option Str :=
  match s.reverse.dropWhile (· ≠ ':') with
  | [] => (s, none)
  | _ :: before => (before.reverse, some (s.reverse.takeWhile (· ≠ ':')).reverse)

/-- The host part of an address: `host:port` up to the last colon. -/
def hostPartOf (address : Str) : Str := (splitLastColon (hostPortPart address)).1

/-- The port digits of an address: after the last colon of `host:port`. -/
def portPartOf (address : Str) : Option Str := (splitLastColon (hostPortPart address)).2

/-- The host checks and final assembly of `parse_gopher_address`
(tocaia.c:1414-1432): reject an empty host, a host containing a space, tab
or newline, a host with no dot whose first character is not a digit, and a
port outside 1-65535; otherwise produce the truncated host copy. -/
def checkHostAndFinish (hp : Str) (port : Int) (selector : Str) :
    Option (Str × Int × Str) :=
  if hp = [] then none
  else if (' ' ∈ hp) ∨ ('\t' ∈ hp) ∨ ('\n' ∈ hp) then none
  else if ('.' ∉ hp) ∧ ¬(hp.headD ' ').isDigit then none
  else if port ≤ 0 ∨ port > 65535 then none
  else some (hp.take 255, port, selector)

/-- Embedding of `parse_gopher_address` (tocaia.c:1373-1433).  `none` is the
C function's FALSE.  The selector defaults to empty and is truncated to
1023 characters; a colon with nothing after it is rejected; the port
defaults to 70 and otherwise comes from `atoi`. -/
def parse_gopher_address (address : Str) : Option (Str × Int × Str) :=
  if address = [] then none
  else
    let selector := match selectorPartRaw address with
      | none => []
      | some s => s.take 1023
    match portPartOf address with
    | some ps =>
      if ps = [] then none
      else checkHostAndFinish (hostPartOf address) (atoi ps) selector
    | none => checkHostAndFinish (hostPartOf address) 70 selector

/-! ## Menu navigation (`handle_menu_navigation`, tocaia.c:465-506) -/

/-- The slice of `AppState` read and written by `handle_menu_navigation`:
the parsed item array, the selectable count, the 1-based selected ordinal,
the scroll offset, and the terminal row count. -/
structure MenuState where
  gopher_items : List GopherItem
  selectable_items : Int
  selected_index : Int
  scroll_offset : Int
  ws_row : Int
deriving Repr, DecidableEq

/-- `viewable_rows` for the menu view (tocaia.c:469): rows - 4, or 0 for
terminals of at most 4 rows. -/
def menuViewableRows (rows : Int) : Int := if rows > 4 then rows - 4 else 0

/-- The search loop of tocaia.c:488-496: the array index of the item whose
running selectable count equals the target ordinal (`none` is the C -1). -/
def findSelectedIdx (target : Int) (cnt : Int) (i : Nat) :
    List GopherItem → Option Nat
  | [] => none
  | it :: rest =>
    if it.is_selectable then
      if cnt + 1 = target then some i
      else findSelectedIdx target (cnt + 1) (i + 1) rest
    else findSelectedIdx target cnt (i + 1) rest

/-- Embedding of `handle_menu_navigation` (tocaia.c:465-506).  With no
selectable items the state is returned untouched; otherwise the ordinal is
moved by the key (`A` up, `B` down, `5` page up, `6` page down) and the
scroll offset is adjusted to keep the selected array index in view. -/
def handle_menu_navigation (st : MenuState) (input : Char) : MenuState :=
  let viewable_rows := menuViewableRows st.ws_row
  if st.selectable_items = 0 then st
  else
    let sel :=
      if input = 'A' then
        if st.selected_index > 1 then st.selected_index - 1 else st.selectable_items
      else if input = 'B' then
        if st.selected_index < st.selectable_items then st.selected_index + 1 else 1
      else if input = '5' then
        if st.selected_index - viewable_rows < 1 then 1
        else st.selected_index - viewable_rows
      else if input = '6' then
        if st.selected_index + viewable_rows > st.selectable_items then st.selectable_items
        else st.selected_index + viewable_rows
      else st.selected_index
    let scroll :=
      match findSelectedIdx sel 0 0 st.gopher_items with
      | none => st.scroll_offset
      | some i =>
        if (i : Int) < st.scroll_offset then (i : Int)
        else if (i : Int) ≥ st.scroll_offset + viewable_rows then
          (i : Int) - viewable_rows + 1
        else st.scroll_offset
    { st with selected_index := sel, scroll_offset := scroll }

/-! ## Text viewer (`handle_text_viewer_interaction`, tocaia.c:583-661) -/

/-- The slice of `AppState` used by the text-viewer scroll logic. -/
structure TextViewState where
  text_scroll_line : Int
  total_content_lines : Int
  ws_row : Int
deriving Repr, DecidableEq

/-- `viewable_rows` for the text view (tocaia.c:593): rows - 4, or 1 for
terminals of at most 4 rows. -/
def textViewableRows (rows : Int) : Int := if rows > 4 then rows - 4 else 1

/-- The top-of-loop recomputation of tocaia.c:593-602: refresh the line
count and clamp the scroll position (first from above, then at 0). -/
def text_viewer_clamp (st : TextViewState) (content : Str) : TextViewState :=
  let viewable := textViewableRows st.ws_row
  let total := calculate_text_lines content
  let s1 := if st.text_scroll_line > total - viewable then total - viewable
            else st.text_scroll_line
  let s2 := if s1 < 0 then 0 else s1
  { st with text_scroll_line := s2, total_content_lines := total }

/-- The events one iteration of the text-viewer loop can observe: a pending
resize, a 3-byte arrow/page escape (its final character), a 1-byte command
key (which ends the interaction), or no input within the poll timeout. -/
inductive TVEvent where
  | resize (newRows : Int)
  | arrow (key : Char)
  | command (c : Char)
  | idle
deriving Repr, DecidableEq

/-- One iteration of the `handle_text_viewer_interaction` loop
(tocaia.c:592-658): clamp first, then handle the event.  The second
component lists the scroll values passed to `draw_text_viewer` during the
iteration, in order (command keys return to the outer loop without
drawing). -/
def text_viewer_iteration (st : TextViewState) (content : Str) (ev : TVEvent) :
    TextViewState × List Int :=
  let st1 := text_viewer_clamp st content
  let viewable := textViewableRows st.ws_row
  match ev with
  | .resize r => ({ st1 with ws_row := r }, [st1.text_scroll_line])
  | .arrow k =>
    let s := st1.text_scroll_line
    let s1 :=
      if k = 'A' then (if s > 0 then s - 1 else s)
      else if k = 'B' then s + 1
      else if k = '5' then (if s - viewable < 0 then 0 else s - viewable)
      else if k = '6' then s + viewable
      else s
    ({ st1 with text_scroll_line := s1 }, [s1])
  | .command _ => (st1, [])
  | .idle => (st1, [])

/-! ## Navigation history (tocaia.c:1004-1099)

`struct NavigationState` nodes live on the C heap and point at each other
with `prev`/`next` pointers.  The heap is embedded as an association list
from allocation ids (handed out by a counter, standing for fresh `malloc`
addresses) to node records whose `prev`/`next` fields hold ids.  `free`
removes the entry from the list. -/

/-- Embedding of `struct NavigationState` (tocaia.c:80-87): the location,
the optional cached body, and the `prev`/`next` pointers as optional ids. -/
structure NavNode where
  host : Str
  port : Int
  selector : Str
  page_content : Option Str
  prev : Option Nat
  next : Option Nat
deriving Repr, DecidableEq

/-- The heap of live `NavigationState` allocations. -/
abbrev NavHeap := List (Nat × NavNode)

/-- Dereference a node pointer. -/
def heapGet (h : NavHeap) (i : Nat) : Option NavNode := List.lookup i h

/-- `free` a node: remove its entry from the heap. -/
def heapRemove (h : NavHeap) (i : Nat) : NavHeap :=
  h.filter (fun e => ¬(e.1 = i))

/-- Assign through a node pointer: `node->next = nx`. -/
def heapSetNext (h : NavHeap) (i : Nat) (nx : Option Nat) : NavHeap :=
  h.map (fun e => if e.1 = i then (e.1, { e.2 with next := nx }) else e)

/-- The `while (forward_node)` loop of `free_forward_history`
(tocaia.c:1027-1034): follow `next` pointers freeing each node (the cached
body is owned by the node, so removing the entry releases it).  The fuel
bounds the walk; `heap.length` steps always suffice on the acyclic heaps the
program builds. -/
def freeChain (h : NavHeap) (cur : Option Nat) (fuel : Nat) : NavHeap :=
  match fuel, cur with
  | 0, _ => h
  | _, none => h
  | fuel + 1, some i =>
    match heapGet h i with
    | none => h
    | some nd => freeChain (heapRemove h i) nd.next fuel

/-- Embedding of `free_forward_history` (tocaia.c:1023-1038): free every
node after `c`, then clear `c`'s `next` pointer. -/
def free_forward_history (h : NavHeap) (c : Nat) : NavHeap :=
  let fwd := (heapGet h c).bind (fun nd => nd.next)
  heapSetNext (freeChain h fwd h.length) c none

/-- Embedding of `create_nav_state` (tocaia.c:1005-1020): a fresh node with
the `strncpy`-truncated location, no content and null links. -/
def create_nav_state (host : Str) (port : Int) (selector : Str) : NavNode :=
  { host := host.take 255, port := port, selector := selector.take 1023,
    page_content := none, prev := none, next := none }

/-- The slice of `AppState` owned by the navigation operations: the heap,
the `current_nav` pointer, the allocation counter, and the view-state
fields that every navigation resets. -/
structure HistState where
  heap : NavHeap
  current_nav : Option Nat
  fresh : Nat
  selected_index : Int
  scroll_offset : Int
  text_scroll_line : Int
deriving Repr, DecidableEq

/-- The zeroed `AppState` of `main` (tocaia.c:184): empty heap, null
current pointer. -/
def initialHistState : HistState :=
  { heap := [], current_nav := none, fresh := 0,
    selected_index := 0, scroll_offset := 0, text_scroll_line := 0 }

/-- Embedding of `navigate_to` (tocaia.c:1065-1079): allocate the new node;
if a current node exists, destroy its forward chain and splice the new node
in behind it; make the new node current and reset the view state. -/
def navigate_to (st : HistState) (host : Str) (port : Int) (selector : Str) :
    HistState :=
  let newId := st.fresh
  let base := create_nav_state host port selector
  match st.current_nav with
  | none =>
    { st with heap := st.heap ++ [(newId, base)], current_nav := some newId,
              fresh := newId + 1,
              selected_index := 1, scroll_offset := 0, text_scroll_line := 0 }
  | some c =>
    let h1 := free_forward_history st.heap c
    let h2 := heapSetNext h1 c (some newId)
    { st with heap := h2 ++ [(newId, { base with prev := some c })],
              current_nav := some newId, fresh := newId + 1,
              selected_index := 1, scroll_offset := 0, text_scroll_line := 0 }

/-- Embedding of `navigate_back` (tocaia.c:1082-1089): move `current_nav`
to its predecessor when there is one, resetting the view state; otherwise a
no-op.  The heap - every node's `prev` and `next` field - is untouched. -/
def navigate_back (st : HistState) : HistState :=
  match st.current_nav with
  | none => st
  | some c =>
    match (heapGet st.heap c).bind (fun nd => nd.prev) with
    | none => st
    | some p =>
      { st with current_nav := some p,
                selected_index := 1, scroll_offset := 0, text_scroll_line := 0 }

/-- Embedding of `navigate_forward` (tocaia.c:1092-1099): symmetric to
`navigate_back`, following `next`. -/
def navigate_forward (st : HistState) : HistState :=
  match st.current_nav with
  | none => st
  | some c =>
    match (heapGet st.heap c).bind (fun nd => nd.next) with
    | none => st
    | some n =>
      { st with current_nav := some n,
                selected_index := 1, scroll_offset := 0, text_scroll_line := 0 }

/-- A history operation, for quantifying over operation sequences. -/
inductive NavOp where
  | navTo (host : Str) (port : Int) (selector : Str)
  | back
  | fwd
deriving Repr, DecidableEq

/-- Apply one operation. -/
def applyNavOp (st : HistState) : NavOp → HistState
  | .navTo h p s => navigate_to st h p s
  | .back => navigate_back st
  | .fwd => navigate_forward st

/-- Run a sequence of operations from the empty history. -/
def runNavOps (ops : List NavOp) : HistState :=
  ops.foldl applyNavOp initialHistState

/-- Follow `next` pointers `n` times from node `i`. -/
def reachN (h : NavHeap) (i : Nat) : Nat → Option Nat
  | 0 => some i
  | n + 1 =>
    match (heapGet h i).bind (fun nd => nd.next) with
    | some j => reachN h j n
    | none => none

/-- A heap is acyclic when no node reaches itself again by following
`next` pointers. -/
def heapAcyclic (h : NavHeap) : Prop :=
  ∀ i ∈ h.map (fun e => e.1), ∀ n : Nat, 0 < n → reachN h i n ≠ some i

/-- The number of heap nodes with no predecessor. -/
def countHeads (h : NavHeap) : Nat :=
  List.countP (fun e => e.2.prev == none) h

/-! ## Helper lemmas -/

lemma first_line_of_eq (content : Str) :
    first_line_of content = (content.takeWhile (· ≠ '\n')).take 1023 := by
  unfold first_line_of
  split
  · rename_i h
    have h2 := List.takeWhile_append_dropWhile (p := fun c => decide (c ≠ '\n'))
      (l := content)
    rw [h, List.append_nil] at h2
    rw [h2]
  · rfl

lemma countNewlines_eq (s : Str) : countNewlines s = (s.count '\n' : Nat) := by
  induction s with
  | nil => simp [countNewlines]
  | cons c rest ih =>
    simp only [countNewlines, ih, List.count_cons]
    by_cases h : c = '\n'
    · simp [h]; ring
    · simp [h]

lemma menuViewableRows_nonneg (rows : Int) : 0 ≤ menuViewableRows rows := by
  unfold menuViewableRows; split <;> omega

lemma textViewableRows_pos (rows : Int) : 1 ≤ textViewableRows rows := by
  unfold textViewableRows; split <;> omega

/-! ## Claims C1, C3, C8, C9, C10 -/

/-- C1: starting from an empty history, after NavigateTo(A), NavigateTo(B),
Back(), NavigateTo(C), the heap holds exactly the nodes for A (id 0) and C
(id 2) linked in that order, C is current, and no node for B remains (node
id 1 and its owned content were freed by the NavigateTo(C) call). -/
theorem claim_C1 :
    runNavOps [.navTo ['a'] 70 [], .navTo ['b'] 70 [], .back, .navTo ['c'] 70 []] =
      { heap := [(0, { host := ['a'], port := 70, selector := [],
                       page_content := none, prev := none, next := some 2 }),
                 (2, { host := ['c'], port := 70, selector := [],
                       page_content := none, prev := some 0, next := none })],
        current_nav := some 2, fresh := 3,
        selected_index := 1, scroll_offset := 0, text_scroll_line := 0 } ∧
    (runNavOps [.navTo ['a'] 70 [], .navTo ['b'] 70 [], .back,
                .navTo ['c'] 70 []]).heap.all
      (fun e => e.2.host != ['b'] && e.1 != 1) = true := by
  constructor
  · rfl
  · rfl

/-- C3: with a fetched body, the classifier returns false for selector
types 0,4,5,6,9,g,I,h; true for an empty selector or type 1; and otherwise
true exactly when the first line of the body, inspected up to 1023 bytes,
contains a tab.  An absent body is never a menu. -/
theorem claim_C3 (sel body : Str) :
    (is_gopher_menu sel none = false) ∧
    (∀ c, sel.head? = some c →
      (c = '0' ∨ c = '4' ∨ c = '5' ∨ c = '6' ∨ c = '9' ∨ c = 'g' ∨ c = 'I' ∨ c = 'h') →
      is_gopher_menu sel (some body) = false) ∧
    ((sel = [] ∨ sel.head? = some '1') → is_gopher_menu sel (some body) = true) ∧
    (∀ c, sel.head? = some c →
      ¬(c = '0' ∨ c = '4' ∨ c = '5' ∨ c = '6' ∨ c = '9' ∨ c = 'g' ∨ c = 'I' ∨ c = 'h') →
      c ≠ '1' →
      (is_gopher_menu sel (some body) = true ↔
        '\t' ∈ (body.takeWhile (· ≠ '\n')).take 1023)) := by
  refine ⟨rfl, ?_, ?_, ?_⟩
  · intro c hc hmem
    cases sel with
    | nil => simp at hc
    | cons s rest =>
      simp only [List.head?] at hc
      cases hc
      simp only [is_gopher_menu, List.head?, if_pos hmem]
  · intro h
    cases sel with
    | nil => rfl
    | cons s rest =>
      rcases h with h | h
      · exact absurd h (List.cons_ne_nil _ _)
      · simp only [List.head?, Option.some.injEq] at h
        cases h
        simp [is_gopher_menu, List.head?]
  · intro c hc hmem h1
    cases sel with
    | nil => simp at hc
    | cons s rest =>
      simp only [List.head?, Option.some.injEq] at hc
      cases hc
      simp only [is_gopher_menu, List.head?, if_neg hmem, if_neg h1,
        first_line_of_eq]
      rw [List.contains_eq_any_beq]
      simp [List.any_eq_true, beq_iff_eq]

/-- C3 witness: the classifier at concrete inputs, through `claim_C3`. -/
theorem claim_C3_witness :
    is_gopher_menu ['0'] (some ['x', '\t', 'y']) = false ∧
    is_gopher_menu [] (some ['x']) = true ∧
    (is_gopher_menu ['7'] (some ['x', '\t', 'y']) = true ↔
      '\t' ∈ ((['x', '\t', 'y'] : Str).takeWhile (· ≠ '\n')).take 1023) :=
  ⟨(claim_C3 ['0'] ['x', '\t', 'y']).2.1 '0' rfl (by tauto),
   (claim_C3 [] ['x']).2.2.1 (Or.inl rfl),
   (claim_C3 ['7'] ['x', '\t', 'y']).2.2.2 '7' rfl (by simp) (by simp)⟩

/-- C8 counterexample: for the 10-line body with `viewable_rows = 4`
(terminal of 8 rows) and scroll line 6, a Down key inside one loop
iteration renders scroll line 7, outside the claimed interval [0, 6]: the
clamp runs at the top of the iteration, not before the render that follows
the key. -/
theorem claim_C8_counterexample :
    calculate_text_lines ('1' :: '\n' :: '2' :: '\n' :: '3' :: '\n' :: '4' :: '\n' ::
      '5' :: '\n' :: '6' :: '\n' :: '7' :: '\n' :: '8' :: '\n' :: '9' :: '\n' ::
      '1' :: '0' :: []) = 10 ∧
    textViewableRows 8 = 4 ∧
    (text_viewer_iteration { text_scroll_line := 6, total_content_lines := 10, ws_row := 8 }
      ('1' :: '\n' :: '2' :: '\n' :: '3' :: '\n' :: '4' :: '\n' ::
        '5' :: '\n' :: '6' :: '\n' :: '7' :: '\n' :: '8' :: '\n' :: '9' :: '\n' ::
        '1' :: '0' :: []) (.arrow 'B')).2 = [7] ∧
    ¬((7 : Int) ≤ max (10 - 4) 0) := by
  refine ⟨rfl, rfl, rfl, by norm_num⟩

/-- C8 (amended): the total line count of a body equals its newline count,
plus one if the body is nonempty and does not end in a newline; the text
scroll line is clamped into `[0, max(total_lines - viewable_rows, 0)]` at
the top of every interaction iteration (before input is handled), and every
render triggered by a resize, Up, or PageUp event in the iteration observes
a value in that interval.  (A render immediately after Down/PageDown may
transiently exceed the bound - see the counterexample.) -/
theorem claim_C8_amended (content : Str) (st : TextViewState) :
    (calculate_text_lines content =
      (content.count '\n' : Nat) +
        (if content ≠ [] ∧ content.getLast? ≠ some '\n' then 1 else 0)) ∧
    (0 ≤ (text_viewer_clamp st content).text_scroll_line ∧
      (text_viewer_clamp st content).text_scroll_line ≤
        max (calculate_text_lines content - textViewableRows st.ws_row) 0) ∧
    (∀ r : Int, ∀ d ∈ (text_viewer_iteration st content (.resize r)).2,
      0 ≤ d ∧ d ≤ max (calculate_text_lines content - textViewableRows st.ws_row) 0) ∧
    (∀ d ∈ (text_viewer_iteration st content (.arrow 'A')).2,
      0 ≤ d ∧ d ≤ max (calculate_text_lines content - textViewableRows st.ws_row) 0) ∧
    (∀ d ∈ (text_viewer_iteration st content (.arrow '5')).2,
      0 ≤ d ∧ d ≤ max (calculate_text_lines content - textViewableRows st.ws_row) 0) := by
  have hv := textViewableRows_pos st.ws_row
  refine ⟨?_, ?_, ?_, ?_, ?_⟩
  · unfold calculate_text_lines
    rw [countNewlines_eq]
  · unfold text_viewer_clamp
    dsimp only
    constructor <;> split_ifs <;> omega
  · intro r d hd
    simp only [text_viewer_iteration, text_viewer_clamp, List.mem_singleton] at hd
    subst hd
    constructor <;> split_ifs <;> omega
  · intro d hd
    simp only [text_viewer_iteration, text_viewer_clamp, List.mem_singleton,
      Char.reduceEq, reduceIte] at hd
    subst hd
    constructor <;> split_ifs <;> omega
  · intro d hd
    simp only [text_viewer_iteration, text_viewer_clamp, List.mem_singleton,
      Char.reduceEq, reduceIte] at hd
    subst hd
    constructor <;> split_ifs <;> omega

/-- C8 witness: `claim_C8_amended` at a concrete 8-line body and a state
whose stale scroll line 9 gets clamped to 3 and rendered on a resize. -/
theorem claim_C8_amended_witness :
    (3 : Int) ∈ (text_viewer_iteration
      { text_scroll_line := 9, total_content_lines := 0, ws_row := 9 }
      ('x' :: '\n' :: 'y' :: '\n' :: 'z' :: '\n' :: 'w' :: '\n' ::
       'v' :: '\n' :: 'u' :: '\n' :: 't' :: '\n' :: 's' :: []) (.resize 5)).2 ∧
    (0 ≤ (3 : Int) ∧ (3 : Int) ≤
      max (calculate_text_lines
        ('x' :: '\n' :: 'y' :: '\n' :: 'z' :: '\n' :: 'w' :: '\n' ::
         'v' :: '\n' :: 'u' :: '\n' :: 't' :: '\n' :: 's' :: []) -
          textViewableRows 9) 0) := by
  have h := (claim_C8_amended
    ('x' :: '\n' :: 'y' :: '\n' :: 'z' :: '\n' :: 'w' :: '\n' ::
     'v' :: '\n' :: 'u' :: '\n' :: 't' :: '\n' :: 's' :: [])
    { text_scroll_line := 9, total_content_lines := 0, ws_row := 9 }).2.2.1 5 3
      (by decide)
  exact ⟨by decide, h⟩

/-- C9: with at least one selectable item and a selected ordinal inside
[1, last], Up moves the ordinal to n-1 for n > 1 and wraps from 1 to the
last selectable ordinal; Down moves to n+1 below the last ordinal and wraps
from the last to 1; PageUp/PageDown move by `viewable_rows` downward/upward
clamped into [1, last ordinal]. -/
theorem claim_C9 (st : MenuState)
    (h1 : 1 ≤ st.selectable_items)
    (h2 : 1 ≤ st.selected_index) (h3 : st.selected_index ≤ st.selectable_items) :
    ((handle_menu_navigation st 'A').selected_index =
      if 1 < st.selected_index then st.selected_index - 1 else st.selectable_items) ∧
    ((handle_menu_navigation st 'B').selected_index =
      if st.selected_index < st.selectable_items then st.selected_index + 1 else 1) ∧
    ((handle_menu_navigation st '5').selected_index =
      max 1 (min st.selectable_items
        (st.selected_index - menuViewableRows st.ws_row))) ∧
    ((handle_menu_navigation st '6').selected_index =
      max 1 (min st.selectable_items
        (st.selected_index + menuViewableRows st.ws_row))) := by
  have hv := menuViewableRows_nonneg st.ws_row
  unfold handle_menu_navigation
  rw [if_neg (by omega)]
  dsimp only
  refine ⟨?_, ?_, ?_, ?_⟩ <;> split_ifs <;> simp_all <;> omega

/-- C9 witness: `claim_C9` on a concrete 3-item menu with selection 1:
Up wraps to 3, Down moves to 2, PageUp stays at 1, PageDown clamps to 3. -/
theorem claim_C9_witness :
    (handle_menu_navigation
      { gopher_items := [
          { type := '1', display_string := ['A'], selector := ['/'],
            host := ['h', '.', 'x'], port := 70, is_selectable := true, menu_index := 1 },
          { type := '0', display_string := ['B'], selector := ['/'],
            host := ['h', '.', 'x'], port := 70, is_selectable := true, menu_index := 2 },
          { type := '7', display_string := ['C'], selector := ['/'],
            host := ['h', '.', 'x'], port := 70, is_selectable := true, menu_index := 3 }],
        selectable_items := 3, selected_index := 1, scroll_offset := 0,
        ws_row := 24 } 'A').selected_index = 3 ∧
    (handle_menu_navigation
      { gopher_items := [
          { type := '1', display_string := ['A'], selector := ['/'],
            host := ['h', '.', 'x'], port := 70, is_selectable := true, menu_index := 1 },
          { type := '0', display_string := ['B'], selector := ['/'],
            host := ['h', '.', 'x'], port := 70, is_selectable := true, menu_index := 2 },
          { type := '7', display_string := ['C'], selector := ['/'],
            host := ['h', '.', 'x'], port := 70, is_selectable := true, menu_index := 3 }],
        selectable_items := 3, selected_index := 1, scroll_offset := 0,
        ws_row := 24 } '6').selected_index = 3 := by
  have h := claim_C9
    { gopher_items := [
        { type := '1', display_string := ['A'], selector := ['/'],
          host := ['h', '.', 'x'], port := 70, is_selectable := true, menu_index := 1 },
        { type := '0', display_string := ['B'], selector := ['/'],
          host := ['h', '.', 'x'], port := 70, is_selectable := true, menu_index := 2 },
        { type := '7', display_string := ['C'], selector := ['/'],
          host := ['h', '.', 'x'], port := 70, is_selectable := true, menu_index := 3 }],
      selectable_items := 3, selected_index := 1, scroll_offset := 0,
      ws_row := 24 } (by norm_num) (by norm_num) (by norm_num)
  refine ⟨?_, ?_⟩
  · rw [h.1]; norm_num
  · rw [h.2.2.2]; norm_num [menuViewableRows]

/-- C10: when the parsed item list of a menu has zero selectable items,
every navigation key input leaves the whole menu state - in particular the
selected ordinal and the scroll offset - unchanged. -/
theorem claim_C10 (data ch : Str) (cp sel scr rows : Int) (input : Char)
    (h0 : (process_gopher_response data ch cp).2 = 0) :
    handle_menu_navigation
      { gopher_items := (process_gopher_response data ch cp).1,
        selectable_items := (process_gopher_response data ch cp).2,
        selected_index := sel, scroll_offset := scr, ws_row := rows } input =
      { gopher_items := (process_gopher_response data ch cp).1,
        selectable_items := (process_gopher_response data ch cp).2,
        selected_index := sel, scroll_offset := scr, ws_row := rows } := by
  unfold handle_menu_navigation
  rw [if_pos h0]

/-- C10 witness: `claim_C10` on a concrete informational-only menu with an
arrow key. -/
theorem claim_C10_witness :
    (process_gopher_response
      ('i' :: 'A' :: '\t' :: '\t' :: '\t' :: '\n' :: '.' :: []) ['h'] 70).2 = 0 ∧
    handle_menu_navigation
      { gopher_items := (process_gopher_response
          ('i' :: 'A' :: '\t' :: '\t' :: '\t' :: '\n' :: '.' :: []) ['h'] 70).1,
        selectable_items := (process_gopher_response
          ('i' :: 'A' :: '\t' :: '\t' :: '\t' :: '\n' :: '.' :: []) ['h'] 70).2,
        selected_index := 1, scroll_offset := 0, ws_row := 24 } 'A' =
      { gopher_items := (process_gopher_response
          ('i' :: 'A' :: '\t' :: '\t' :: '\t' :: '\n' :: '.' :: []) ['h'] 70).1,
        selectable_items := (process_gopher_response
          ('i' :: 'A' :: '\t' :: '\t' :: '\t' :: '\n' :: '.' :: []) ['h'] 70).2,
        selected_index := 1, scroll_offset := 0, ws_row := 24 } :=
  ⟨by decide, claim_C10 _ _ 70 1 0 24 'A' (by decide)⟩

/-! ## Claims C4 and C5 -/

lemma splitFirstTab_fst (s : Str) : (splitFirstTab s).1 = s.takeWhile (· ≠ '\t') := by
  unfold splitFirstTab
  split
  · rename_i h
    have h2 := List.takeWhile_append_dropWhile (p := fun c => decide (c ≠ '\t')) (l := s)
    rw [h, List.append_nil] at h2
    dsimp only
    rw [h2]
  · rfl

lemma selectable_iff (ty : Char) (host : Str) :
    ((ty == '0' || ty == '1' || ty == '2' || ty == '7' || ty == 'h') &&
      !(host == nullHost) && !(host == errorHost)) = true ↔
    ((ty = '0' ∨ ty = '1' ∨ ty = '2' ∨ ty = '7' ∨ ty = 'h') ∧
      host ≠ nullHost ∧ host ≠ errorHost) := by
  simp only [Bool.and_eq_true, Bool.or_eq_true, beq_iff_eq, Bool.not_eq_true',
    beq_eq_false_iff_ne, ne_eq]
  tauto

lemma menuFields_fst (rest : Str) : (menuFields rest).1 = rest.takeWhile (· ≠ '\t') := by
  rw [← splitFirstTab_fst]
  unfold menuFields
  dsimp only
  split
  · rfl
  · split <;> rfl

set_option maxRecDepth 8192 in
/-- C4 counterexample: a menu line whose host field has 256 characters.
The claim says the item's host equals the (non-empty) host field, but the
`strncpy` into the 256-byte `host` buffer keeps only 255 characters. -/
theorem claim_C4_counterexample :
    (menuFields ((stripCR ('1' :: 'x' :: '\t' :: '/' :: '\t' ::
        (List.replicate 256 'a' ++ '\t' :: '7' :: '0' :: []))).drop 1)).2.2.1 =
      some (List.replicate 256 'a') ∧
    List.replicate 256 'a' ≠ ([] : Str) ∧
    (parse_gopher_line ('1' :: 'x' :: '\t' :: '/' :: '\t' ::
        (List.replicate 256 'a' ++ '\t' :: '7' :: '0' :: [])) ['h'] 70).map
      (fun it => it.host) = some (List.replicate 255 'a') ∧
    List.replicate 255 'a' ≠ List.replicate 256 'a' := by
  refine ⟨by decide, by decide, by decide, ?_⟩
  intro h
  have := congrArg List.length h
  simp at this

/-- C4 (amended): for a menu line whose type tag is not `i` and that
carries all three required fields, the item's host is the host field when
non-empty (the current host otherwise), in both cases truncated to 255
characters; the port is the `atoi` of the port field when present and the
current port otherwise; and the item is selectable iff its type is one of
0,1,2,7,h and its resolved host is neither `null.host` nor `error.host`. -/
theorem claim_C4_amended (line ch : Str) (cp : Int) (ty : Char) (rest : Str)
    (hline : stripCR line = ty :: rest)
    (hty : ty ≠ 'i')
    (f1 f2 : Str) (of3 : Option Str)
    (h1 : (menuFields rest).2.1 = some f1)
    (h2 : (menuFields rest).2.2.1 = some f2)
    (h3 : (menuFields rest).2.2.2 = of3) :
    ∃ item : GopherItem,
      parse_gopher_line line ch cp = some item ∧
      item.host = (if f2 ≠ [] then f2 else ch).take 255 ∧
      item.port = of3.elim cp atoi ∧
      (item.is_selectable = true ↔
        ((ty = '0' ∨ ty = '1' ∨ ty = '2' ∨ ty = '7' ∨ ty = 'h') ∧
          item.host ≠ nullHost ∧ item.host ≠ errorHost)) := by
  cases rest with
  | nil => simp [menuFields, splitFirstTab] at h1
  | cons r1 rs =>
    unfold parse_gopher_line
    rw [hline]
    dsimp only
    rw [if_neg (by simp [hty, h1, h2])]
    rw [h1, h2]
    simp only [Option.getD_some]
    rcases of3 with _ | f3 <;> rw [h3] <;>
      exact ⟨_, rfl, rfl, rfl, selectable_iff _ _⟩

/-- C4 witness: `claim_C4_amended` on the spec's example line
`"1Home\t/\texample.org\t70"`. -/
theorem claim_C4_amended_witness :
    ∃ item : GopherItem,
      parse_gopher_line
        ('1' :: 'H' :: 'o' :: 'm' :: 'e' :: '\t' :: '/' :: '\t' ::
         'e' :: 'x' :: 'a' :: 'm' :: 'p' :: 'l' :: 'e' :: '.' :: 'o' :: 'r' :: 'g' ::
         '\t' :: '7' :: '0' :: []) ['h'] 70 = some item ∧
      item.host = (if (['e', 'x', 'a', 'm', 'p', 'l', 'e', '.', 'o', 'r', 'g'] : Str) ≠ []
        then (['e', 'x', 'a', 'm', 'p', 'l', 'e', '.', 'o', 'r', 'g'] : Str)
        else ['h']).take 255 ∧
      item.port = (some ['7', '0'] : Option Str).elim (70 : Int) atoi ∧
      (item.is_selectable = true ↔
        (('1' = '0' ∨ '1' = '1' ∨ '1' = '2' ∨ '1' = '7' ∨ '1' = 'h') ∧
          item.host ≠ nullHost ∧ item.host ≠ errorHost)) :=
  claim_C4_amended _ ['h'] 70 '1'
    ('H' :: 'o' :: 'm' :: 'e' :: '\t' :: '/' :: '\t' ::
     'e' :: 'x' :: 'a' :: 'm' :: 'p' :: 'l' :: 'e' :: '.' :: 'o' :: 'r' :: 'g' ::
     '\t' :: '7' :: '0' :: [])
    (by decide) (by decide) ['/'] ['e', 'x', 'a', 'm', 'p', 'l', 'e', '.', 'o', 'r', 'g']
    (some ['7', '0']) (by decide) (by decide) (by decide)

/-- Modelled from the spec's words (for the C5 comparison only): trim both
leading and trailing whitespace from a string. -/
def specTrimBoth (s : Str) : Str :=
  ((s.dropWhile cIsSpace).reverse.dropWhile cIsSpace).reverse

/-- C5 counterexample: the informational line `"i  Hi\tw"`.  The claim says
the display text is the whole remainder after the type character with
leading and trailing whitespace trimmed, i.e. `"Hi\tw"`; the code keeps the
leading spaces and cuts the remainder at the first tab, producing
`"  Hi"`. -/
theorem claim_C5_counterexample :
    (parse_gopher_line ('i' :: ' ' :: ' ' :: 'H' :: 'i' :: '\t' :: 'w' :: []) ['h'] 70).map
      (fun it => it.display_string) = some (' ' :: ' ' :: 'H' :: 'i' :: []) ∧
    specTrimBoth ((stripCR ('i' :: ' ' :: ' ' :: 'H' :: 'i' :: '\t' :: 'w' :: [])).drop 1) =
      ('H' :: 'i' :: '\t' :: 'w' :: []) ∧
    (' ' :: ' ' :: 'H' :: 'i' :: [] : Str) ≠ ('H' :: 'i' :: '\t' :: 'w' :: []) := by
  refine ⟨by decide, by decide, by decide⟩

/-- C5 (amended): a non-skipped line whose type tag is `i` or that is
missing a required field yields a non-selectable informational item whose
display text is the remainder after the type character *up to the first
tab*, truncated to 1023 characters, with only *trailing* whitespace
removed (and kept verbatim when entirely whitespace); selector and host
are empty and the port is 0. -/
theorem claim_C5_amended (line ch : Str) (cp : Int) (ty r1 : Char) (rs : Str)
    (hline : stripCR line = ty :: r1 :: rs)
    (hcase : ty = 'i' ∨ (menuFields (r1 :: rs)).2.1 = none ∨
      (menuFields (r1 :: rs)).2.2.1 = none) :
    parse_gopher_line line ch cp =
      some { type := ty,
             display_string :=
               trim_whitespace (((r1 :: rs).takeWhile (· ≠ '\t')).take 1023),
             selector := [], host := [], port := 0,
             is_selectable := false, menu_index := 0 } := by
  unfold parse_gopher_line
  rw [hline]
  dsimp only
  rw [if_pos (by tauto)]
  rw [menuFields_fst]

/-- C5 witness: `claim_C5_amended` on the spec's example line
`"iInfo text\t\t\t"`, whose display is `"Info text"`. -/
theorem claim_C5_amended_witness :
    parse_gopher_line
      ('i' :: 'I' :: 'n' :: 'f' :: 'o' :: ' ' :: 't' :: 'e' :: 'x' :: 't' ::
       '\t' :: '\t' :: '\t' :: []) ['h'] 70 =
      some { type := 'i',
             display_string :=
               trim_whitespace ((('I' :: 'n' :: 'f' :: 'o' :: ' ' :: 't' :: 'e' :: 'x' :: 't' ::
                 '\t' :: '\t' :: '\t' :: []).takeWhile (· ≠ '\t')).take 1023),
             selector := [], host := [], port := 0,
             is_selectable := false, menu_index := 0 } ∧
    trim_whitespace ((('I' :: 'n' :: 'f' :: 'o' :: ' ' :: 't' :: 'e' :: 'x' :: 't' ::
      '\t' :: '\t' :: '\t' :: []).takeWhile (· ≠ '\t')).take 1023) =
      ('I' :: 'n' :: 'f' :: 'o' :: ' ' :: 't' :: 'e' :: 'x' :: 't' :: []) :=
  ⟨claim_C5_amended _ ['h'] 70 'i' 'I'
    ('n' :: 'f' :: 'o' :: ' ' :: 't' :: 'e' :: 'x' :: 't' :: '\t' :: '\t' :: '\t' :: [])
    (by decide) (Or.inl rfl), by decide⟩

/-! ## Claims C6 and C7: address parser lemmas -/

lemma digitCh_isDigit {d : Nat} (h : d < 10) : (digitCh d).isDigit = true := by
  interval_cases d <;> decide

lemma digitVal_digitCh {d : Nat} (h : d < 10) : digitVal (digitCh d) = d := by
  interval_cases d <;> decide

lemma isDigit_not_special {c : Char} (h : c.isDigit = true) :
    cIsSpace c = false ∧ c ≠ '-' ∧ c ≠ '+' ∧ c ≠ ':' ∧ c ≠ '/' := by
  refine ⟨?_, ?_, ?_, ?_, ?_⟩
  · by_contra hs
    rw [Bool.not_eq_false] at hs
    simp only [cIsSpace, Bool.or_eq_true, beq_iff_eq] at hs
    rcases hs with ((((h1 | h1) | h1) | h1) | h1) | h1 <;> subst h1 <;>
      exact absurd h (by decide)
  all_goals (intro hc; subst hc; exact absurd h (by decide))

lemma natReprGo_congr : ∀ f1 f2 n : Nat, n < f1 → n < f2 →
    natReprGo f1 n = natReprGo f2 n := by
  intro f1
  induction f1 with
  | zero => intro f2 n h1; omega
  | succ f1 ih =>
    intro f2 n h1 h2
    cases f2 with
    | zero => omega
    | succ f2 =>
      simp only [natReprGo]
      split
      · rfl
      · rename_i hn
        have hd : n / 10 < n := Nat.div_lt_self (by omega) (by omega)
        rw [ih f2 (n / 10) (by omega) (by omega)]

lemma natRepr_eq (n : Nat) :
    natRepr n = if n < 10 then [digitCh n]
                else natRepr (n / 10) ++ [digitCh (n % 10)] := by
  have h1 : natRepr n = natReprGo (n + 1) n := rfl
  rw [h1]
  simp only [natReprGo]
  split
  · rfl
  · rename_i hn
    have hd : n / 10 < n := Nat.div_lt_self (by omega) (by omega)
    rw [natReprGo_congr n (n / 10 + 1) (n / 10) (by omega) (by omega)]
    rfl

lemma natRepr_ne_nil (n : Nat) : natRepr n ≠ [] := by
  rw [natRepr_eq]
  split <;> simp

lemma natRepr_all_digit (n : Nat) : ∀ c ∈ natRepr n, c.isDigit = true := by
  induction n using Nat.strong_induction_on with
  | _ n ih =>
    rw [natRepr_eq]
    split
    · rename_i hn
      intro c hc
      simp only [List.mem_singleton] at hc
      subst hc
      exact digitCh_isDigit hn
    · rename_i hn
      intro c hc
      have hd : n / 10 < n := Nat.div_lt_self (by omega) (by omega)
      rcases List.mem_append.mp hc with h | h
      · exact ih (n / 10) hd c h
      · simp only [List.mem_singleton] at h
        subst h
        exact digitCh_isDigit (Nat.mod_lt _ (by omega))

lemma atoiDigits_append (acc : Int) (xs ys : Str)
    (h : ∀ c ∈ xs, c.isDigit = true) :
    atoiDigits acc (xs ++ ys) = atoiDigits (atoiDigits acc xs) ys := by
  induction xs generalizing acc with
  | nil => rfl
  | cons c xs ih =>
    simp only [List.cons_append, atoiDigits]
    rw [if_pos (h c (List.mem_cons_self c xs)), if_pos (h c (List.mem_cons_self c xs))]
    exact ih _ (fun d hd => h d (List.mem_cons_of_mem c hd))

lemma atoiDigits_natRepr (n : Nat) : atoiDigits 0 (natRepr n) = (n : Int) := by
  induction n using Nat.strong_induction_on with
  | _ n ih =>
    rw [natRepr_eq]
    split
    · rename_i hn
      simp only [atoiDigits, if_pos (digitCh_isDigit hn), digitVal_digitCh hn]
      push_cast
      ring
    · rename_i hn
      have hd : n / 10 < n := Nat.div_lt_self (by omega) (by omega)
      rw [atoiDigits_append _ _ _ (natRepr_all_digit _), ih (n / 10) hd]
      have hm : n % 10 < 10 := Nat.mod_lt _ (by omega)
      simp only [atoiDigits, if_pos (digitCh_isDigit hm), digitVal_digitCh hm]
      have := Nat.div_add_mod n 10
      push_cast
      omega

lemma atoi_natRepr (n : Nat) : atoi (natRepr n) = (n : Int) := by
  obtain ⟨c, rest, hcr⟩ : ∃ c rest, natRepr n = c :: rest := by
    rcases hr : natRepr n with _ | ⟨c, rest⟩
    · exact absurd hr (natRepr_ne_nil n)
    · exact ⟨c, rest, rfl⟩
  have hc : c.isDigit = true := natRepr_all_digit n c (by rw [hcr]; exact List.mem_cons_self _ _)
  obtain ⟨hsp, hminus, hplus, _, _⟩ := isDigit_not_special hc
  unfold atoi
  rw [hcr]
  rw [List.dropWhile_cons_of_neg (by simp [hsp])]
  dsimp only
  rw [if_neg hminus, if_neg hplus, ← hcr]
  exact atoiDigits_natRepr n

lemma takeWhile_of_all {p : Char → Bool} {l : Str} (h : ∀ a ∈ l, p a) :
    l.takeWhile p = l := by
  induction l with
  | nil => rfl
  | cons c t ih =>
    rw [List.takeWhile_cons_of_pos (h c (List.mem_cons_self c t))]
    rw [ih (fun a ha => h a (List.mem_cons_of_mem c ha))]

lemma dropWhile_of_all {p : Char → Bool} {l : Str} (h : ∀ a ∈ l, p a) :
    l.dropWhile p = [] := by
  induction l with
  | nil => rfl
  | cons c t ih =>
    rw [List.dropWhile_cons_of_pos (h c (List.mem_cons_self c t))]
    exact ih (fun a ha => h a (List.mem_cons_of_mem c ha))

lemma splitLastColon_no_colon (s : Str) (h : ∀ c ∈ s, c ≠ ':') :
    splitLastColon s = (s, none) := by
  unfold splitLastColon
  rw [dropWhile_of_all (by simp_all)]

lemma splitLastColon_append (h pd : Str) (hpd : ∀ c ∈ pd, c ≠ ':') :
    splitLastColon (h ++ ':' :: pd) = (h, some pd) := by
  unfold splitLastColon
  rw [List.reverse_append, List.reverse_cons, List.append_assoc]
  rw [List.dropWhile_append_of_pos (by simp_all)]
  rw [List.takeWhile_append_of_pos (by simp_all)]
  simp

/-- A valid Gopher host string (the spec's data model: nonempty, at most
255 bytes, no whitespace, no colon or slash, and either containing a dot or
starting with a digit - the parser's heuristic filter). -/
def ValidHost (h : Str) : Prop :=
  h ≠ [] ∧ h.length ≤ 255 ∧
  (∀ c ∈ h, c ≠ ' ' ∧ c ≠ '\t' ∧ c ≠ '\n' ∧ c ≠ ':' ∧ c ≠ '/') ∧
  ('.' ∈ h ∨ (h.headD ' ').isDigit = true)

instance (h : Str) : Decidable (ValidHost h) := by
  unfold ValidHost
  infer_instance

lemma checkHost_ok (hp : Str) (port : Int) (sel : Str)
    (h1 : hp ≠ []) (h2 : hp.length ≤ 255)
    (h3 : ∀ c ∈ hp, c ≠ ' ' ∧ c ≠ '\t' ∧ c ≠ '\n')
    (h4 : '.' ∈ hp ∨ (hp.headD ' ').isDigit = true)
    (h5 : 1 ≤ port) (h6 : port ≤ 65535) :
    checkHostAndFinish hp port sel = some (hp, port, sel) := by
  unfold checkHostAndFinish
  rw [if_neg h1]
  rw [if_neg (by rintro (hw | hw | hw) <;> [skip; skip; skip] <;>
    first
    | exact (h3 _ hw).1 rfl
    | exact (h3 _ hw).2.1 rfl
    | exact (h3 _ hw).2.2 rfl)]
  rw [if_neg (by rintro ⟨hd, hng⟩; rcases h4 with h4 | h4; exact hd h4; exact hng h4)]
  rw [if_neg (by omega)]
  rw [List.take_of_length_le h2]

lemma schemeStripped_concrete (rest : Str) (hlen : rest.length ≤ 1280) :
    schemeStripped (gopherScheme ++ rest) = rest := by
  unfold schemeStripped
  rw [List.take_of_length_le (by simp only [List.length_append]; norm_num [gopherScheme]; omega)]
  dsimp only
  rw [List.take_left' (by rfl), if_pos rfl, List.drop_left' (by rfl)]

lemma checkHost_fail (hp : Str) (port : Int) (sel : Str)
    (h : hp = [] ∨ (∃ c ∈ hp, c = ' ' ∨ c = '\t' ∨ c = '\n') ∨
      ('.' ∉ hp ∧ (hp.headD ' ').isDigit = false) ∨ port ≤ 0 ∨ 65535 < port) :
    checkHostAndFinish hp port sel = none := by
  unfold checkHostAndFinish
  split_ifs with g1 g2 g3 g4
  · rfl
  · rfl
  · rfl
  · rfl
  · exfalso
    rcases h with h | ⟨c, hc, hw⟩ | ⟨hd, hng⟩ | h | h
    · exact g1 h
    · rcases hw with hw | hw | hw <;> subst hw <;> exact g2 (by tauto)
    · exact g3 ⟨hd, by rw [hng]; simp⟩
    · omega
    · omega

lemma natRepr_length_le : ∀ k p : Nat, p < 10 ^ (k + 1) → (natRepr p).length ≤ k + 1 := by
  intro k
  induction k with
  | zero =>
    intro p hp
    rw [natRepr_eq, if_pos (by norm_num at hp; omega)]
    rfl
  | succ k ih =>
    intro p hp
    rw [natRepr_eq]
    split
    · simp
    · rename_i hn
      have hdiv : p / 10 < 10 ^ (k + 1) := by
        rw [Nat.div_lt_iff_lt_mul (by norm_num)]
        calc p < 10 ^ (k + 2) := hp
        _ = 10 ^ (k + 1) * 10 := by ring
      have := ih (p / 10) hdiv
      simp only [List.length_append, List.length_singleton]
      omega

/-- C6 (amended): for every valid host `h` (nonempty, at most 255 bytes, no
whitespace/colon/slash, dot or leading digit), port `p` in 1..65535, and
selector `s` of at most 1023 bytes: parsing `gopher://h:p/s` yields exactly
`(h, p, s)` *provided the whole URL fits the parser's 1289-character input
buffer* (see the counterexample for the overflow); parsing `gopher://h/s`
yields port 70; and parsing `gopher://h:p` yields the empty selector. -/
theorem claim_C6_amended (h s : Str) (p : Nat)
    (hh : ValidHost h) (hp1 : 1 ≤ p) (hp2 : p ≤ 65535) (hs : s.length ≤ 1023) :
    (9 + h.length + 1 + (natRepr p).length + 1 + s.length ≤ 1289 →
      parse_gopher_address (gopherScheme ++ (h ++ ':' :: (natRepr p ++ '/' :: s))) =
        some (h, (p : Int), s)) ∧
    parse_gopher_address (gopherScheme ++ (h ++ '/' :: s)) = some (h, 70, s) ∧
    parse_gopher_address (gopherScheme ++ (h ++ ':' :: natRepr p)) =
      some (h, (p : Int), []) := by
  obtain ⟨hne, hlen, hchars, hdot⟩ := hh
  have hch3 : ∀ c ∈ h, c ≠ ' ' ∧ c ≠ '\t' ∧ c ≠ '\n' :=
    fun c hc => ⟨(hchars c hc).1, (hchars c hc).2.1, (hchars c hc).2.2.1⟩
  have hdig := natRepr_all_digit p
  have hncolon : ∀ c ∈ natRepr p, c ≠ ':' :=
    fun c hc => (isDigit_not_special (hdig c hc)).2.2.2.1
  have hnslash : ∀ c ∈ natRepr p, c ≠ '/' :=
    fun c hc => (isDigit_not_special (hdig c hc)).2.2.2.2
  have hp1' : (1 : Int) ≤ (p : Int) := by exact_mod_cast hp1
  have hp2' : ((p : Nat) : Int) ≤ 65535 := by exact_mod_cast hp2
  have hreprlen : (natRepr p).length ≤ 5 := by
    have := natRepr_length_le 4 p (by omega)
    omega
  refine ⟨?_, ?_, ?_⟩
  · -- gopher://h:p/s
    intro hurl
    have hlen1 : (h ++ ':' :: (natRepr p ++ '/' :: s)).length ≤ 1280 := by
      simp only [List.length_append, List.length_cons] at hurl ⊢
      omega
    have hss := schemeStripped_concrete _ hlen1
    have hassoc : h ++ ':' :: (natRepr p ++ '/' :: s) =
        (h ++ ':' :: natRepr p) ++ '/' :: s := by simp
    have hall : ∀ a ∈ h ++ ':' :: natRepr p, (fun c => decide (c ≠ '/')) a = true := by
      intro a ha
      rcases List.mem_append.mp ha with ha | ha
      · simpa using (hchars a ha).2.2.2.2
      · rcases List.mem_cons.mp ha with ha | ha
        · subst ha; decide
        · simpa using hnslash a ha
    have hhp : hostPortPart (gopherScheme ++ (h ++ ':' :: (natRepr p ++ '/' :: s))) =
        h ++ ':' :: natRepr p := by
      unfold hostPortPart
      rw [hss, hassoc]
      rw [List.takeWhile_append_of_pos hall]
      rw [List.takeWhile_cons_of_neg (by simp)]
      simp
    have hsel : selectorPartRaw (gopherScheme ++ (h ++ ':' :: (natRepr p ++ '/' :: s))) =
        some s := by
      unfold selectorPartRaw
      rw [hss, hassoc]
      rw [List.dropWhile_append_of_pos hall]
      rw [List.dropWhile_cons_of_neg (by simp)]
    have hsplit : splitLastColon (h ++ ':' :: natRepr p) = (h, some (natRepr p)) :=
      splitLastColon_append h (natRepr p) hncolon
    unfold parse_gopher_address
    rw [if_neg (by simp [gopherScheme])]
    dsimp only
    rw [hsel]
    dsimp only
    rw [List.take_of_length_le hs]
    unfold portPartOf
    rw [hhp, hsplit]
    dsimp only
    rw [if_neg (natRepr_ne_nil p)]
    unfold hostPartOf
    rw [hhp, hsplit]
    dsimp only
    rw [atoi_natRepr]
    exact checkHost_ok h _ s hne hlen hch3 hdot hp1' hp2'
  · -- gopher://h/s
    have hlen2 : (h ++ '/' :: s).length ≤ 1280 := by
      simp only [List.length_append, List.length_cons]
      omega
    have hss := schemeStripped_concrete _ hlen2
    have hall : ∀ a ∈ h, (fun c => decide (c ≠ '/')) a = true := by
      intro a ha
      simpa using (hchars a ha).2.2.2.2
    have hhp : hostPortPart (gopherScheme ++ (h ++ '/' :: s)) = h := by
      unfold hostPortPart
      rw [hss]
      rw [List.takeWhile_append_of_pos hall]
      rw [List.takeWhile_cons_of_neg (by simp)]
      simp
    have hsel : selectorPartRaw (gopherScheme ++ (h ++ '/' :: s)) = some s := by
      unfold selectorPartRaw
      rw [hss]
      rw [List.dropWhile_append_of_pos hall]
      rw [List.dropWhile_cons_of_neg (by simp)]
    have hsplit : splitLastColon h = (h, none) :=
      splitLastColon_no_colon h (fun c hc => (hchars c hc).2.2.2.1)
    unfold parse_gopher_address
    rw [if_neg (by simp [gopherScheme])]
    dsimp only
    rw [hsel]
    dsimp only
    rw [List.take_of_length_le hs]
    unfold portPartOf
    rw [hhp, hsplit]
    dsimp only
    unfold hostPartOf
    rw [hhp, hsplit]
    dsimp only
    exact checkHost_ok h 70 s hne hlen hch3 hdot (by norm_num) (by norm_num)
  · -- gopher://h:p
    have hlen3 : (h ++ ':' :: natRepr p).length ≤ 1280 := by
      simp only [List.length_append, List.length_cons]
      omega
    have hss := schemeStripped_concrete _ hlen3
    have hall : ∀ a ∈ h ++ ':' :: natRepr p, (fun c => decide (c ≠ '/')) a = true := by
      intro a ha
      rcases List.mem_append.mp ha with ha | ha
      · simpa using (hchars a ha).2.2.2.2
      · rcases List.mem_cons.mp ha with ha | ha
        · subst ha; decide
        · simpa using hnslash a ha
    have hhp : hostPortPart (gopherScheme ++ (h ++ ':' :: natRepr p)) =
        h ++ ':' :: natRepr p := by
      unfold hostPortPart
      rw [hss]
      exact takeWhile_of_all hall
    have hsel : selectorPartRaw (gopherScheme ++ (h ++ ':' :: natRepr p)) = none := by
      unfold selectorPartRaw
      rw [hss]
      rw [dropWhile_of_all hall]
    have hsplit : splitLastColon (h ++ ':' :: natRepr p) = (h, some (natRepr p)) :=
      splitLastColon_append h (natRepr p) hncolon
    unfold parse_gopher_address
    rw [if_neg (by simp [gopherScheme])]
    dsimp only
    rw [hsel]
    dsimp only
    unfold portPartOf
    rw [hhp, hsplit]
    dsimp only
    rw [if_neg (natRepr_ne_nil p)]
    unfold hostPartOf
    rw [hhp, hsplit]
    dsimp only
    rw [atoi_natRepr]
    exact checkHost_ok h _ [] hne hlen hch3 hdot hp1' hp2'

set_option maxRecDepth 100000 in
set_option maxHeartbeats 2000000 in
/-- C6 counterexample: a maximal valid URL (255-character host, 5-digit
port, 1023-character selector) is 1294 characters, but the parser's
`temp_address` buffer keeps only 1289, so parsing succeeds yet returns a
selector truncated to 1018 characters instead of `s` - the round-trip
fails. -/
theorem claim_C6_counterexample :
    ValidHost ('a' :: '.' :: List.replicate 253 'a') ∧
    (List.replicate 1023 'b' : Str).length ≤ 1023 ∧
    (gopherScheme ++ ('a' :: '.' :: List.replicate 253 'a') ++
      ':' :: natRepr 65535 ++ '/' :: List.replicate 1023 'b').length = 1294 ∧
    parse_gopher_address (gopherScheme ++ ('a' :: '.' :: List.replicate 253 'a') ++
      ':' :: natRepr 65535 ++ '/' :: List.replicate 1023 'b') =
      some ('a' :: '.' :: List.replicate 253 'a', 65535, List.replicate 1018 'b') ∧
    List.replicate 1018 'b' ≠ List.replicate 1023 'b' := by
  refine ⟨by decide, by decide, by decide, by decide, ?_⟩
  intro hbad
  have := congrArg List.length hbad
  simp at this

/-- C6 witness: `claim_C6_amended` at host `a.b`, port 70, selector `x`. -/
theorem claim_C6_amended_witness :
    parse_gopher_address (gopherScheme ++
        (['a', '.', 'b'] ++ ':' :: (natRepr 70 ++ '/' :: ['x']))) =
      some (['a', '.', 'b'], (70 : Int), ['x']) ∧
    parse_gopher_address (gopherScheme ++ (['a', '.', 'b'] ++ '/' :: ['x'])) =
      some (['a', '.', 'b'], 70, ['x']) ∧
    parse_gopher_address (gopherScheme ++ (['a', '.', 'b'] ++ ':' :: natRepr 70)) =
      some (['a', '.', 'b'], (70 : Int), []) := by
  have hm := claim_C6_amended ['a', '.', 'b'] ['x'] 70
    (by decide) (by norm_num) (by norm_num) (by norm_num)
  exact ⟨hm.1 (by decide), hm.2.1, hm.2.2⟩

/-- C7 (amended): the address parser fails for: the empty string; an empty
host part; a host part containing a space, tab, or newline (these are the
only whitespace characters it checks - see the counterexample for a
carriage return slipping through); a host part with no dot whose first
character is not a digit; a colon with nothing after it; or a port part
whose `atoi` value (optional whitespace and sign, then leading digits) is
outside 1..65535 - in particular ports 0 and 65536. -/
theorem claim_C7_amended (addr : Str)
    (hc : addr = [] ∨ hostPartOf addr = [] ∨
      (∃ c ∈ hostPartOf addr, c = ' ' ∨ c = '\t' ∨ c = '\n') ∨
      ('.' ∉ hostPartOf addr ∧ ((hostPartOf addr).headD ' ').isDigit = false) ∨
      portPartOf addr = some [] ∨
      (∃ ps, portPartOf addr = some ps ∧ (atoi ps ≤ 0 ∨ 65535 < atoi ps))) :
    parse_gopher_address addr = none := by
  by_cases haddr : addr = []
  · unfold parse_gopher_address
    rw [if_pos haddr]
  · unfold parse_gopher_address
    rw [if_neg haddr]
    dsimp only
    rcases hpp : portPartOf addr with _ | ps
    · dsimp only
      apply checkHost_fail
      rcases hc with h | h | h | h | h | h
      · exact absurd h haddr
      · exact Or.inl h
      · exact Or.inr (Or.inl h)
      · exact Or.inr (Or.inr (Or.inl h))
      · rw [hpp] at h; exact absurd h (by simp)
      · obtain ⟨ps, hps, _⟩ := h
        rw [hpp] at hps
        exact absurd hps (by simp)
    · dsimp only
      by_cases hpse : ps = []
      · rw [if_pos hpse]
      · rw [if_neg hpse]
        apply checkHost_fail
        rcases hc with h | h | h | h | h | h
        · exact absurd h haddr
        · exact Or.inl h
        · exact Or.inr (Or.inl h)
        · exact Or.inr (Or.inr (Or.inl h))
        · rw [hpp] at h
          injection h with h
          exact absurd h hpse
        · obtain ⟨ps', hps', hrange⟩ := h
          rw [hpp] at hps'
          injection hps' with hps'
          subst hps'
          rcases hrange with h | h
          · exact Or.inr (Or.inr (Or.inr (Or.inl h)))
          · exact Or.inr (Or.inr (Or.inr (Or.inr h)))

/-- C7 witness: `claim_C7_amended` at the empty string, port 0, port
65536, and a trailing colon. -/
theorem claim_C7_amended_witness :
    parse_gopher_address [] = none ∧
    parse_gopher_address ['h', '.', 'x', ':', '0'] = none ∧
    parse_gopher_address ['h', '.', 'x', ':', '6', '5', '5', '3', '6'] = none ∧
    parse_gopher_address ['h', '.', 'x', ':'] = none :=
  ⟨claim_C7_amended _ (Or.inl rfl),
   claim_C7_amended _ (Or.inr (Or.inr (Or.inr (Or.inr (Or.inr
     ⟨['0'], by decide, Or.inl (by decide)⟩))))),
   claim_C7_amended _ (Or.inr (Or.inr (Or.inr (Or.inr (Or.inr
     ⟨['6', '5', '5', '3', '6'], by decide, Or.inr (by decide)⟩))))),
   claim_C7_amended _ (Or.inr (Or.inr (Or.inr (Or.inr (Or.inl (by decide))))))⟩

/-- C7 counterexample: `a.b\rc:12xy`.  The host part contains the
whitespace character `\r` (carriage return) and the port part `12xy` is not
numeric, yet the parser accepts the address with port 12: it only checks
for space/tab/newline in the host, and `atoi` reads the numeric prefix of
the port. -/
theorem claim_C7_counterexample :
    '\r' ∈ hostPartOf ['a', '.', 'b', '\r', 'c', ':', '1', '2', 'x', 'y'] ∧
    ('\r').isWhitespace = true ∧
    portPartOf ['a', '.', 'b', '\r', 'c', ':', '1', '2', 'x', 'y'] =
      some ['1', '2', 'x', 'y'] ∧
    (['1', '2', 'x', 'y'] : Str).all Char.isDigit = false ∧
    parse_gopher_address ['a', '.', 'b', '\r', 'c', ':', '1', '2', 'x', 'y'] =
      some (['a', '.', 'b', '\r', 'c'], 12, []) := by
  refine ⟨by decide, by decide, by decide, by decide, by decide⟩

/-! ## Claim C2: the heap of every reachable history state is a single
acyclic doubly-linked chain.

`linkSeg p q es` lays the entries `es` out as a chain whose first node's
`prev` is `p` and whose last node's `next` is `q`; the invariant states
that every heap produced by the navigation operations is `linkSeg none
none es` for entries with distinct ids, with the current pointer on one of
them. -/

/-- The location-and-content data of a history node, without its links. -/
structure NodeData where
  host : Str
  port : Int
  selector : Str
  content : Option Str
deriving Repr, DecidableEq

/-- Build a `NavNode` from data and links. -/
def mkNode (d : NodeData) (p q : Option Nat) : NavNode :=
  { host := d.host, port := d.port, selector := d.selector,
    page_content := d.content, prev := p, next := q }

/-- A heap entry before linking: an id and the node data. -/
abbrev NavEntry := Nat × NodeData

/-- The id of the first entry, or `q` when there is none. -/
def nextKey (q : Option Nat) (tl : List NavEntry) : Option Nat :=
  match tl with
  | [] => q
  | e :: _ => some e.1

/-- The id of the last entry, or `p` when there is none. -/
def lastKey (p : Option Nat) : List NavEntry → Option Nat
  | [] => p
  | e :: tl => lastKey (some e.1) tl

/-- Lay entries out as a doubly-linked chain segment: the first node's
`prev` is `p`, each node's `next` is its successor's id, and the last
node's `next` is `q`. -/
def linkSeg (p q : Option Nat) : List NavEntry → NavHeap
  | [] => []
  | (i, d) :: tl => (i, mkNode d p (nextKey q tl)) :: linkSeg (some i) q tl

/-- The ids of a heap. -/
def heapIds (h : NavHeap) : List Nat := h.map (fun e => e.1)

/-- The ids of an entry list. -/
def entryIds (es : List NavEntry) : List Nat := es.map (fun e => e.1)

lemma heapIds_linkSeg (p q : Option Nat) (es : List NavEntry) :
    heapIds (linkSeg p q es) = entryIds es := by
  induction es generalizing p with
  | nil => rfl
  | cons e tl ih =>
    obtain ⟨i, d⟩ := e
    simp only [linkSeg, heapIds, entryIds, List.map_cons] at ih ⊢
    rw [ih]

lemma linkSeg_length (p q : Option Nat) (es : List NavEntry) :
    (linkSeg p q es).length = es.length := by
  have := heapIds_linkSeg p q es
  have h1 := congrArg List.length this
  simpa [heapIds, entryIds] using h1

lemma nextKey_append (q q' : Option Nat) (xs : List NavEntry) (y : NavEntry)
    (ys : List NavEntry) :
    nextKey q (xs ++ y :: ys) = nextKey q' (xs ++ y :: ys) := by
  cases xs <;> rfl

lemma linkSeg_append (p q : Option Nat) (xs : List NavEntry) (y : NavEntry)
    (ys : List NavEntry) :
    linkSeg p q (xs ++ y :: ys) =
      linkSeg p (some y.1) xs ++ linkSeg (lastKey p xs) q (y :: ys) := by
  induction xs generalizing p with
  | nil => rfl
  | cons x xs ih =>
    obtain ⟨i, d⟩ := x
    simp only [List.cons_append, linkSeg, lastKey, List.append_eq]
    have hnk : nextKey q (xs ++ y :: ys) = nextKey (some y.1) xs := by
      cases xs <;> rfl
    rw [hnk, ih]
    rfl

lemma lastKey_snoc (p : Option Nat) (xs : List NavEntry) (e : NavEntry) :
    lastKey p (xs ++ [e]) = some e.1 := by
  induction xs generalizing p with
  | nil => rfl
  | cons x xs ih => exact ih _

lemma lookup_cons_self (i : Nat) (n : NavNode) (t : NavHeap) :
    List.lookup i ((i, n) :: t) = some n := by
  simp [List.lookup]

lemma lookup_append_right {h1 h2 : NavHeap} {i : Nat} (hni : i ∉ heapIds h1) :
    List.lookup i (h1 ++ h2) = List.lookup i h2 := by
  induction h1 with
  | nil => rfl
  | cons e t ih =>
    simp only [heapIds, List.map_cons, List.mem_cons] at hni
    push_neg at hni
    simp only [List.cons_append, List.lookup]
    rw [show (i == e.1) = false from beq_eq_false_iff_ne.mpr hni.1]
    exact ih (by simpa [heapIds] using hni.2)

lemma freeChain_none (h : NavHeap) (fuel : Nat) : freeChain h none fuel = h := by
  cases fuel <;> rfl

lemma heapRemove_of_not_mem {h : NavHeap} {i : Nat} (hni : i ∉ heapIds h) :
    heapRemove h i = h := by
  induction h with
  | nil => rfl
  | cons e t ih =>
    simp only [heapIds, List.map_cons, List.mem_cons] at hni
    push_neg at hni
    simp only [heapRemove, List.filter_cons]
    rw [if_pos (by simpa using (Ne.symm hni.1 : e.1 ≠ i))]
    have := ih (by simpa [heapIds] using hni.2)
    simpa [heapRemove] using this

lemma lookup_linkSeg_mid (pre post : List NavEntry) (c : Nat) (d : NodeData)
    (p q : Option Nat)
    (hc : c ∉ entryIds pre) :
    List.lookup c (linkSeg p q (pre ++ (c, d) :: post)) =
      some (mkNode d (lastKey p pre) (nextKey q post)) := by
  rw [linkSeg_append]
  rw [lookup_append_right (by rwa [heapIds_linkSeg])]
  exact lookup_cons_self _ _ _

lemma freeChain_linkSeg : ∀ (post : List NavEntry) (h0 : NavHeap) (p : Option Nat)
    (fuel : Nat),
    (∀ i ∈ entryIds post, i ∉ heapIds h0) →
    (entryIds post).Nodup →
    post.length ≤ fuel →
    freeChain (h0 ++ linkSeg p none post) (nextKey none post) fuel = h0 := by
  intro post
  induction post with
  | nil =>
    intro h0 p fuel _ _ _
    simp only [linkSeg, List.append_nil, nextKey]
    exact freeChain_none h0 fuel
  | cons f post ih =>
    intro h0 p fuel hdisj hnd hfuel
    obtain ⟨i, d⟩ := f
    cases fuel with
    | zero => simp at hfuel
    | succ fuel =>
      have hi0 : i ∉ heapIds h0 := hdisj i (by simp [entryIds])
      have hit : i ∉ heapIds (linkSeg (some i) none post) := by
        rw [heapIds_linkSeg]
        simp only [entryIds, List.map_cons, List.nodup_cons] at hnd
        exact hnd.1
      have hexp : linkSeg p none ((i, d) :: post) =
          (i, mkNode d p (nextKey none post)) :: linkSeg (some i) none post := rfl
      have hlook : heapGet (h0 ++ linkSeg p none ((i, d) :: post)) i =
          some (mkNode d p (nextKey none post)) := by
        unfold heapGet
        rw [hexp, lookup_append_right hi0, lookup_cons_self]
      have hrem : heapRemove (h0 ++ linkSeg p none ((i, d) :: post)) i =
          h0 ++ linkSeg (some i) none post := by
        rw [hexp]
        unfold heapRemove
        rw [List.filter_append]
        rw [show (h0.filter (fun e => ¬(e.1 = i))) = h0 from heapRemove_of_not_mem hi0]
        congr 1
        rw [List.filter_cons, if_neg (by simp)]
        exact heapRemove_of_not_mem hit
      have hstep : freeChain (h0 ++ linkSeg p none ((i, d) :: post)) (some i) (fuel + 1) =
          freeChain (h0 ++ linkSeg (some i) none post)
            (mkNode d p (nextKey none post)).next fuel := by
        simp only [freeChain, hlook, hrem]
      have hnk : nextKey none ((i, d) :: post) = some i := rfl
      rw [hnk, hstep]
      show freeChain (h0 ++ linkSeg (some i) none post) (nextKey none post) fuel = h0
      refine ih h0 (some i) fuel ?_ ?_ ?_
      · intro j hj
        refine hdisj j ?_
        simp only [entryIds, List.map_cons, List.mem_cons]
        exact Or.inr hj
      · simp only [entryIds, List.map_cons, List.nodup_cons] at hnd
        exact hnd.2
      · simp only [List.length_cons] at hfuel
        omega

lemma heapSetNext_linkSeg (xs : List NavEntry) (c : Nat) (d : NodeData)
    (p q q' : Option Nat) (hc : c ∉ entryIds xs) :
    heapSetNext (linkSeg p q (xs ++ [(c, d)])) c q' = linkSeg p q' (xs ++ [(c, d)]) := by
  induction xs generalizing p with
  | nil =>
    simp [linkSeg, heapSetNext, nextKey, mkNode]
  | cons x xs ih =>
    obtain ⟨i, dx⟩ := x
    simp only [entryIds, List.map_cons, List.mem_cons] at hc
    push_neg at hc
    have hexp : ∀ r : Option Nat, linkSeg p r ((i, dx) :: (xs ++ [(c, d)])) =
        (i, mkNode dx p (nextKey r (xs ++ [(c, d)]))) ::
          linkSeg (some i) r (xs ++ [(c, d)]) := fun r => rfl
    simp only [List.cons_append]
    rw [hexp q, hexp q']
    unfold heapSetNext
    simp only [List.map_cons]
    rw [if_neg (by simpa using (Ne.symm hc.1 : i ≠ c))]
    have hnk : nextKey q (xs ++ [(c, d)]) = nextKey q' (xs ++ [(c, d)]) := by
      cases xs <;> rfl
    rw [hnk]
    congr 1
    have := ih (some i) (by simpa [entryIds] using hc.2)
    simpa [heapSetNext] using this

lemma countHeads_linkSeg_some (i0 : Nat) (q : Option Nat) (es : List NavEntry) :
    countHeads (linkSeg (some i0) q es) = 0 := by
  induction es generalizing i0 with
  | nil => rfl
  | cons e tl ih =>
    obtain ⟨i, d⟩ := e
    simp only [linkSeg, countHeads, List.countP_cons]
    have := ih i
    simp only [countHeads] at this
    rw [this]
    rfl

lemma countHeads_linkSeg_none (q : Option Nat) (es : List NavEntry) :
    countHeads (linkSeg none q es) = if es = [] then 0 else 1 := by
  cases es with
  | nil => rfl
  | cons e tl =>
    obtain ⟨i, d⟩ := e
    simp only [linkSeg, countHeads, List.countP_cons, if_neg (List.cons_ne_nil _ _)]
    have := countHeads_linkSeg_some i q tl
    simp only [countHeads] at this
    rw [this]
    rfl

lemma reachN_chain : ∀ (es : List NavEntry) (h0 : NavHeap) (p : Option Nat)
    (e : NavEntry) (n : Nat),
    (∀ j ∈ entryIds (e :: es), j ∉ heapIds h0) →
    (entryIds (e :: es)).Nodup →
    reachN (h0 ++ linkSeg p none (e :: es)) e.1 n =
      ((e :: es)[n]?).map (fun x => x.1) := by
  intro es
  induction es with
  | nil =>
    intro h0 p e n hdisj hnd
    obtain ⟨i, d⟩ := e
    cases n with
    | zero => rfl
    | succ n =>
      have hi0 : i ∉ heapIds h0 := hdisj i (by simp [entryIds])
      simp only [reachN, heapGet]
      rw [show linkSeg p none [(i, d)] = [(i, mkNode d p none)] from rfl]
      rw [lookup_append_right hi0, lookup_cons_self]
      simp [mkNode]
  | cons e2 es ih =>
    intro h0 p e n hdisj hnd
    obtain ⟨i, d⟩ := e
    cases n with
    | zero => rfl
    | succ n =>
      have hi0 : i ∉ heapIds h0 := hdisj i (by simp [entryIds])
      have hexp : linkSeg p none ((i, d) :: e2 :: es) =
          (i, mkNode d p (some e2.1)) :: linkSeg (some i) none (e2 :: es) := rfl
      have hre : h0 ++ (i, mkNode d p (some e2.1)) :: linkSeg (some i) none (e2 :: es) =
          (h0 ++ [(i, mkNode d p (some e2.1))]) ++ linkSeg (some i) none (e2 :: es) := by
        simp
      have hdisj' : ∀ j ∈ entryIds (e2 :: es),
          j ∉ heapIds (h0 ++ [(i, mkNode d p (some e2.1))]) := by
        intro j hj
        have hjin : j ∈ entryIds ((i, d) :: e2 :: es) := by
          simp only [entryIds, List.map_cons, List.mem_cons]
          right
          simpa [entryIds] using hj
        simp only [heapIds, List.map_append, List.mem_append, List.map_cons,
          List.map_nil, List.mem_singleton]
        push_neg
        refine ⟨?_, ?_⟩
        · have := hdisj j hjin
          simpa [heapIds] using this
        · simp only [entryIds, List.map_cons, List.nodup_cons] at hnd
          intro hji
          exact hnd.1 (hji ▸ hj)
      have hnd' : (entryIds (e2 :: es)).Nodup := by
        simp only [entryIds, List.map_cons, List.nodup_cons] at hnd ⊢
        exact ⟨hnd.2.1, hnd.2.2⟩
      have hstep : reachN (h0 ++ linkSeg p none ((i, d) :: e2 :: es)) i (n + 1) =
          reachN ((h0 ++ [(i, mkNode d p (some e2.1))]) ++
            linkSeg (some i) none (e2 :: es)) e2.1 n := by
        simp only [reachN, heapGet]
        rw [hexp, lookup_append_right hi0, lookup_cons_self, hre]
        rfl
      rw [hstep, ih (h0 ++ [(i, mkNode d p (some e2.1))]) (some i) e2 n hdisj' hnd']
      simp

lemma heapAcyclic_linkSeg (es : List NavEntry) (hnd : (entryIds es).Nodup) :
    heapAcyclic (linkSeg none none es) := by
  intro i hi n hn hcontra
  have hi' : i ∈ entryIds es := by
    have : (linkSeg none none es).map (fun e => e.1) = entryIds es :=
      heapIds_linkSeg none none es
    rwa [this] at hi
  simp only [entryIds] at hi'
  obtain ⟨e, he, hei⟩ := List.mem_map.mp hi'
  obtain ⟨j, hj, hgj⟩ := List.getElem_of_mem he
  have hsplit : es = es.take j ++ es[j] :: es.drop (j + 1) := by
    rw [List.getElem_cons_drop es j hj]
    exact (List.take_append_drop j es).symm
  have hheap : linkSeg none none es =
      linkSeg none (some (es[j]).1) (es.take j) ++
        linkSeg (lastKey none (es.take j)) none (es[j] :: es.drop (j + 1)) := by
    conv_lhs => rw [hsplit]
    exact linkSeg_append _ _ _ _ _
  have hids : entryIds es =
      entryIds (es.take j) ++ entryIds (es[j] :: es.drop (j + 1)) := by
    conv_lhs => rw [hsplit]
    simp [entryIds]
  rw [hids] at hnd
  rw [List.nodup_append] at hnd
  have hdisj : ∀ k ∈ entryIds (es[j] :: es.drop (j + 1)),
      k ∉ heapIds (linkSeg none (some (es[j]).1) (es.take j)) := by
    intro k hk
    rw [heapIds_linkSeg]
    exact fun hk2 => hnd.2.2 hk2 hk
  have hnd2 : (entryIds (es[j] :: es.drop (j + 1))).Nodup := hnd.2.1
  rw [hheap] at hcontra
  have hei2 : (es[j]).1 = i := by rw [hgj, hei]
  rw [← hei2] at hcontra
  rw [reachN_chain (es.drop (j + 1)) _ _ _ n hdisj hnd2] at hcontra
  -- the walk lands on the (j+n)-th entry of es
  have hcd : es[j] :: es.drop (j + 1) = es.drop j := List.getElem_cons_drop es j hj
  rw [hcd] at hcontra
  have hgd : (es.drop j)[n]? = es[j + n]? := by
    rcases Nat.lt_or_ge (j + n) es.length with hlt | hge
    · have h1 : n < (es.drop j).length := List.lt_length_drop es hlt
      rw [List.getElem?_eq_getElem h1, List.getElem?_eq_getElem hlt]
      rw [List.getElem_drop' es hlt]
    · have h1 : (es.drop j).length ≤ n := by
        simp only [List.length_drop]
        omega
      rw [List.getElem?_eq_none h1, List.getElem?_eq_none hge]
  rw [hgd] at hcontra
  rcases hjn : es[j + n]? with _ | x
  · rw [hjn] at hcontra
    exact Option.noConfusion hcontra
  · rw [hjn] at hcontra
    have hx : x.1 = i := by
      injection hcontra with h1
      rw [← hei2]
      exact h1
    have hlt : j + n < es.length := (List.getElem?_eq_some_iff.mp hjn).1
    have hxj : es[j + n] = x := by
      have := List.getElem?_eq_some_iff.mp hjn
      exact this.2
    -- two positions with the same id contradict nodup
    have hnd0 : (entryIds es).Nodup := by
      rw [hids, List.nodup_append]
      exact hnd
    have hinj : j + n = j := by
      have hlen : (entryIds es).length = es.length := by simp [entryIds]
      have hb1 : j + n < (entryIds es).length := by rw [hlen]; exact hlt
      have hb2 : j < (entryIds es).length := by rw [hlen]; exact hj
      have hmj : (entryIds es)[j + n] = (entryIds es)[j] := by
        simp only [entryIds]
        rw [List.getElem_map, List.getElem_map]
        rw [hxj]
        show x.1 = (es[j]).1
        rw [hx, hei2]
      exact (List.Nodup.getElem_inj_iff hnd0).mp hmj
    omega

/-- The heap of `st` is exactly the chain `es`: linked by `linkSeg`, with
distinct ids all below the allocation counter, and with the current
pointer on one of the entries (or no node at all). -/
def ChainRep (st : HistState) (es : List NavEntry) : Prop :=
  st.heap = linkSeg none none es ∧
  (entryIds es).Nodup ∧
  (∀ i ∈ entryIds es, i < st.fresh) ∧
  ((st.current_nav = none ∧ es = []) ∨
   (∃ c dd pre post, st.current_nav = some c ∧ es = pre ++ (c, dd) :: post))

/-- A history state whose heap is a single well-formed chain. -/
def WFHist (st : HistState) : Prop := ∃ es, ChainRep st es

lemma WFHist_initial : WFHist initialHistState :=
  ⟨[], rfl, by simp [entryIds], by simp [entryIds], Or.inl ⟨rfl, rfl⟩⟩

lemma free_forward_history_linkSeg (pre post : List NavEntry) (c : Nat) (dd : NodeData)
    (hnd : (entryIds (pre ++ (c, dd) :: post)).Nodup) :
    free_forward_history (linkSeg none none (pre ++ (c, dd) :: post)) c =
      linkSeg none none (pre ++ [(c, dd)]) := by
  have hidsplit : entryIds (pre ++ (c, dd) :: post) =
      entryIds pre ++ c :: entryIds post := by simp [entryIds]
  rw [hidsplit] at hnd
  rw [List.nodup_append] at hnd
  have hcpre : c ∉ entryIds pre :=
    fun hin => hnd.2.2 hin (List.mem_cons_self _ _)
  have hcpost : c ∉ entryIds post := (List.nodup_cons.mp hnd.2.1).1
  have hlook : heapGet (linkSeg none none (pre ++ (c, dd) :: post)) c =
      some (mkNode dd (lastKey none pre) (nextKey none post)) :=
    lookup_linkSeg_mid pre post c dd none none hcpre
  unfold free_forward_history
  rw [hlook]
  simp only [Option.some_bind]
  cases post with
  | nil =>
    rw [show (mkNode dd (lastKey none pre) (nextKey none ([] : List NavEntry))).next =
      none from rfl]
    rw [freeChain_none]
    exact heapSetNext_linkSeg pre c dd none none none hcpre
  | cons f post' =>
    rw [show (mkNode dd (lastKey none pre) (nextKey none (f :: post'))).next =
      some f.1 from rfl]
    have hsplit2 : pre ++ (c, dd) :: f :: post' = (pre ++ [(c, dd)]) ++ f :: post' := by
      simp
    rw [hsplit2, linkSeg_append, lastKey_snoc]
    dsimp only
    have hdisj : ∀ j ∈ entryIds (f :: post'),
        j ∉ heapIds (linkSeg none (some f.1) (pre ++ [(c, dd)])) := by
      intro j hj
      rw [heapIds_linkSeg]
      have hids2 : entryIds (pre ++ [(c, dd)]) = entryIds pre ++ [c] := by
        simp [entryIds]
      rw [hids2]
      simp only [List.mem_append, List.mem_singleton]
      push_neg
      have hnd21 := List.nodup_cons.mp hnd.2.1
      constructor
      · intro hjpre
        exact hnd.2.2 hjpre (by simp only [List.mem_cons]; right; exact hj)
      · intro hjc
        exact hnd21.1 (hjc ▸ hj)
    have hndf : (entryIds (f :: post')).Nodup := (List.nodup_cons.mp hnd.2.1).2
    have hfuel : (f :: post').length ≤
        (linkSeg none (some f.1) (pre ++ [(c, dd)]) ++
          linkSeg (some c) none (f :: post')).length := by
      simp only [List.length_append, linkSeg_length]
      omega
    have hfc := freeChain_linkSeg (f :: post')
      (linkSeg none (some f.1) (pre ++ [(c, dd)])) (some c)
      ((linkSeg none (some f.1) (pre ++ [(c, dd)]) ++
        linkSeg (some c) none (f :: post')).length) hdisj hndf hfuel
    rw [show nextKey none (f :: post') = some f.1 from rfl] at hfc
    rw [hfc]
    exact heapSetNext_linkSeg pre c dd none (some f.1) none hcpre

lemma navigate_to_WF (st : HistState) (host : Str) (port : Int) (selector : Str)
    (h : WFHist st) : WFHist (navigate_to st host port selector) := by
  obtain ⟨es, hheap, hnd, hfresh, hcur⟩ := h
  obtain ⟨heap, cur, fresh, si, so, tl⟩ := st
  simp only at hheap hnd hfresh hcur
  rcases hcur with ⟨hc, hes⟩ | ⟨c, dd, pre, post, hc, hes⟩
  · -- no current node: the new node becomes the sole chain entry
    subst hc
    subst hes
    subst hheap
    refine ⟨[(fresh, ⟨host.take 255, port, selector.take 1023, none⟩)],
      ?_, ?_, ?_, ?_⟩
    · rfl
    · simp [entryIds]
    · simp [entryIds, navigate_to]
    · exact Or.inr ⟨fresh, _, [], [], rfl, rfl⟩
  · -- prune the forward chain and splice the new node behind the current one
    subst hc
    subst hes
    subst hheap
    have hidsplit : entryIds (pre ++ (c, dd) :: post) =
        entryIds pre ++ c :: entryIds post := by simp [entryIds]
    have hcpre : c ∉ entryIds pre := by
      rw [hidsplit, List.nodup_append] at hnd
      exact fun hin => hnd.2.2 hin (List.mem_cons_self _ _)
    show WFHist (navigate_to ⟨linkSeg none none (pre ++ (c, dd) :: post),
      some c, fresh, si, so, tl⟩ host port selector)
    unfold navigate_to
    dsimp only
    rw [free_forward_history_linkSeg pre post c dd hnd]
    rw [heapSetNext_linkSeg pre c dd none none (some fresh) hcpre]
    refine ⟨(pre ++ [(c, dd)]) ++
      [(fresh, ⟨host.take 255, port, selector.take 1023, none⟩)], ?_, ?_, ?_, ?_⟩
    · show linkSeg none (some fresh) (pre ++ [(c, dd)]) ++
        [(fresh, { host := host.take 255, port := port,
                   selector := selector.take 1023, page_content := none,
                   prev := some c, next := none })] = _
      conv_rhs => rw [linkSeg_append none none (pre ++ [(c, dd)])
        (fresh, ⟨host.take 255, port, selector.take 1023, none⟩) []]
      rw [lastKey_snoc]
      rfl
    · have hsub : entryIds ((pre ++ [(c, dd)]) ++
          [(fresh, (⟨host.take 255, port, selector.take 1023, none⟩ : NodeData))]) =
          (entryIds pre ++ [c]) ++ [fresh] := by simp [entryIds]
      rw [hsub, List.nodup_append]
      refine ⟨?_, by simp, ?_⟩
      · have : (entryIds pre ++ [c]).Sublist (entryIds pre ++ c :: entryIds post) :=
          List.Sublist.append_left (by simp) _
        exact List.Nodup.sublist this (hidsplit ▸ hnd)
      · intro a ha hb
        simp only [List.mem_singleton] at hb
        subst hb
        have : a ∈ entryIds (pre ++ (c, dd) :: post) := by
          rw [hidsplit]
          simp only [List.mem_append, List.mem_cons, List.mem_singleton] at ha ⊢
          tauto
        exact absurd (hfresh a this) (by omega)
    · intro i hi
      have hsub : entryIds ((pre ++ [(c, dd)]) ++
          [(fresh, (⟨host.take 255, port, selector.take 1023, none⟩ : NodeData))]) =
          (entryIds pre ++ [c]) ++ [fresh] := by simp [entryIds]
      rw [hsub] at hi
      simp only [List.mem_append, List.mem_singleton] at hi
      show i < fresh + 1
      rcases hi with (hi | hi) | hi
      · have : i ∈ entryIds (pre ++ (c, dd) :: post) := by
          rw [hidsplit]; simp [hi]
        have := hfresh i this
        omega
      · rw [hi]
        have h2 : c ∈ entryIds (pre ++ (c, dd) :: post) := by
          rw [hidsplit]; simp
        have := hfresh c h2
        omega
      · omega
    · exact Or.inr ⟨fresh, _, pre ++ [(c, dd)], [], rfl, rfl⟩

lemma navigate_back_heap (st : HistState) : (navigate_back st).heap = st.heap := by
  unfold navigate_back
  split
  · rfl
  · split <;> rfl

lemma navigate_forward_heap (st : HistState) : (navigate_forward st).heap = st.heap := by
  unfold navigate_forward
  split
  · rfl
  · split <;> rfl

lemma navigate_back_WF (st : HistState) (h : WFHist st) : WFHist (navigate_back st) := by
  obtain ⟨es, hheap, hnd, hfresh, hcur⟩ := h
  obtain ⟨heap, cur, fresh, si, so, tl⟩ := st
  simp only at hheap hnd hfresh hcur
  rcases hcur with ⟨hc, hes⟩ | ⟨c, dd, pre, post, hc, hes⟩
  · subst hc
    exact ⟨es, hheap, hnd, hfresh, Or.inl ⟨rfl, hes⟩⟩
  · subst hc
    subst hes
    subst hheap
    have hidsplit : entryIds (pre ++ (c, dd) :: post) =
        entryIds pre ++ c :: entryIds post := by simp [entryIds]
    have hcpre : c ∉ entryIds pre := by
      rw [hidsplit, List.nodup_append] at hnd
      exact fun hin => hnd.2.2 hin (List.mem_cons_self _ _)
    have hlook : heapGet (linkSeg none none (pre ++ (c, dd) :: post)) c =
        some (mkNode dd (lastKey none pre) (nextKey none post)) :=
      lookup_linkSeg_mid pre post c dd none none hcpre
    unfold navigate_back
    dsimp only
    rw [hlook]
    simp only [Option.some_bind]
    rw [show (mkNode dd (lastKey none pre) (nextKey none post)).prev =
      lastKey none pre from rfl]
    rcases List.eq_nil_or_concat pre with hpre | ⟨pre2, pe, hpre⟩
    · subst hpre
      exact ⟨[] ++ (c, dd) :: post, rfl, hnd, hfresh,
        Or.inr ⟨c, dd, [], post, rfl, rfl⟩⟩
    · subst hpre
      simp only [List.concat_eq_append] at hnd hfresh ⊢
      rw [lastKey_snoc]
      refine ⟨(pre2 ++ [pe]) ++ (c, dd) :: post, rfl, hnd, hfresh, ?_⟩
      refine Or.inr ⟨pe.1, pe.2, pre2, (c, dd) :: post, rfl, ?_⟩
      simp

lemma navigate_forward_WF (st : HistState) (h : WFHist st) :
    WFHist (navigate_forward st) := by
  obtain ⟨es, hheap, hnd, hfresh, hcur⟩ := h
  obtain ⟨heap, cur, fresh, si, so, tl⟩ := st
  simp only at hheap hnd hfresh hcur
  rcases hcur with ⟨hc, hes⟩ | ⟨c, dd, pre, post, hc, hes⟩
  · subst hc
    exact ⟨es, hheap, hnd, hfresh, Or.inl ⟨rfl, hes⟩⟩
  · subst hc
    subst hes
    subst hheap
    have hidsplit : entryIds (pre ++ (c, dd) :: post) =
        entryIds pre ++ c :: entryIds post := by simp [entryIds]
    have hcpre : c ∉ entryIds pre := by
      rw [hidsplit, List.nodup_append] at hnd
      exact fun hin => hnd.2.2 hin (List.mem_cons_self _ _)
    have hlook : heapGet (linkSeg none none (pre ++ (c, dd) :: post)) c =
        some (mkNode dd (lastKey none pre) (nextKey none post)) :=
      lookup_linkSeg_mid pre post c dd none none hcpre
    unfold navigate_forward
    dsimp only
    rw [hlook]
    simp only [Option.some_bind]
    rw [show (mkNode dd (lastKey none pre) (nextKey none post)).next =
      nextKey none post from rfl]
    cases post with
    | nil =>
      exact ⟨pre ++ [(c, dd)], rfl, hnd, hfresh,
        Or.inr ⟨c, dd, pre, [], rfl, rfl⟩⟩
    | cons f post' =>
      rw [show nextKey none (f :: post') = some f.1 from rfl]
      refine ⟨pre ++ (c, dd) :: f :: post', rfl, hnd, hfresh, ?_⟩
      refine Or.inr ⟨f.1, f.2, pre ++ [(c, dd)], post', rfl, ?_⟩
      simp

lemma WFHist_runNavOps (ops : List NavOp) : WFHist (runNavOps ops) := by
  suffices h : ∀ st, WFHist st → WFHist (List.foldl applyNavOp st ops) from
    h initialHistState WFHist_initial
  induction ops with
  | nil => intro st h; exact h
  | cons op ops ih =>
    intro st h
    rw [List.foldl_cons]
    apply ih
    cases op with
    | navTo a b c => exact navigate_to_WF st a b c h
    | back => exact navigate_back_WF st h
    | fwd => exact navigate_forward_WF st h

/-- C2: for every sequence of NavigateTo/Back/Forward operations run from
the empty history, the heap has exactly one node with no predecessor (none
while it is empty) and is acyclic under `next`-pointer reachability; and,
for arbitrary states, Back and Forward leave the heap - every node's
`prev` and `next` field - unchanged, so NavigateTo is the only operation
that changes the link structure. -/
theorem claim_C2 (ops : List NavOp) :
    (countHeads (runNavOps ops).heap =
      if (runNavOps ops).heap = [] then 0 else 1) ∧
    heapAcyclic (runNavOps ops).heap ∧
    (∀ st : HistState,
      (navigate_back st).heap = st.heap ∧ (navigate_forward st).heap = st.heap) := by
  obtain ⟨es, hheap, hnd, _, _⟩ := WFHist_runNavOps ops
  refine ⟨?_, ?_, fun st => ⟨navigate_back_heap st, navigate_forward_heap st⟩⟩
  · rw [hheap, countHeads_linkSeg_none]
    cases es with
    | nil => rfl
    | cons e tl =>
      rw [if_neg (List.cons_ne_nil _ _), if_neg ?_]
      obtain ⟨i, d⟩ := e
      exact List.cons_ne_nil _ _
  · rw [hheap]
    exact heapAcyclic_linkSeg es hnd

/-- C2 witness: `claim_C2` on the operation sequence NavigateTo(a),
NavigateTo(b), Back, discharging the acyclicity hypotheses at node id 0
with one step. -/
theorem claim_C2_witness :
    countHeads (runNavOps [.navTo ['a'] 70 [], .navTo ['b'] 70 [], .back]).heap = 1 ∧
    reachN (runNavOps [.navTo ['a'] 70 [], .navTo ['b'] 70 [], .back]).heap 0 1 ≠
      some 0 := by
  have h := claim_C2 [.navTo ['a'] 70 [], .navTo ['b'] 70 [], .back]
  refine ⟨?_, ?_⟩
  · rw [h.1]
    decide
  · exact h.2.1 0 (by decide) 1 (by decide)

end Tocaia
